import Mathlib

/-!
Verification development for the modctl build pipeline.

The Go sources under verification are:
  * `pkg/backend/build.go` — the build orchestrator (`Build`, `process`);
  * the remote output strategy (`remoteOutput.OutputLayer` /
    `OutputConfig` / `OutputManifest`);
  * the processors (`modelProcessor.Identify`, `modelConfigProcessor.Identify`);
  * the Modelfile parser / renderer and the workspace scanner, whose
    implementation files are absent from the source tree: those are modelled
    from the specification, with every observable behaviour pinned to the
    repository's own tests (`TestNewModelfile`, `TestNewModelfileByWorkspace`,
    `TestModelfile_Content`).

Machine strings are modelled as `List Char` (`Str`), byte streams as
`List Nat` (`Bytes`).  External collaborators that the spec declares out of
scope (SHA-256, the tar archiver) enter as function parameters, so every
theorem holds for an arbitrary digest function and an arbitrary
single-file tar encoder.
-/

namespace Modctl

abbrev Str := List Char

abbrev Bytes := List Nat

/-- ASCII whitespace recognised when trimming a Modelfile line (space, tab,
carriage return; the line splitter has already consumed newlines). -/
def isWS (c : Char) : Bool := c = ' ' || c = '\t' || c = '\r'

/-- Split a character stream on newline characters; `n` newlines yield
`n + 1` physical lines, so blank lines are preserved. -/
def splitLines : Str → List Str
  | [] => [[]]
  | c :: cs =>
    if c = '\n' then [] :: splitLines cs
    else
      match splitLines cs with
      | [] => [[c]]
      | l :: ls => (c :: l) :: ls

/-- Join physical lines back with newline separators. -/
def joinLines : List Str → Str
  | [] => []
  | [l] => l
  | l :: l2 :: ls => l ++ '\n' :: joinLines (l2 :: ls)

/-- Strip leading and trailing ASCII whitespace, as the parser does with
`strings.TrimSpace` before classifying a line. -/
def trim (s : Str) : Str :=
  ((s.dropWhile isWS).reverse.dropWhile isWS).reverse

/-- Worker for `fields`: accumulates the current token (reversed). -/
def fieldsAux : Str → Str → List Str
  | [], acc => if acc = [] then [] else [acc.reverse]
  | c :: cs, acc =>
    if isWS c then
      if acc = [] then fieldsAux cs [] else acc.reverse :: fieldsAux cs []
    else fieldsAux cs (c :: acc)

/-- Split a line into whitespace-delimited tokens (`strings.Fields`). -/
def fields (s : Str) : List Str := fieldsAux s []

/-- Decimal rendering of a line counter for error messages. -/
def natStr (n : Nat) : Str := (Nat.repr n).data

/-- The typed Modelfile: five multi-valued directive sets and seven
single-valued scalar fields, exactly the fields of the Go `modelfile`
struct exercised by `TestNewModelfile` and `TestModelfile_Content`.
Multi-valued sets are kept as duplicate-free insertion lists (the Go code
uses a hashset). -/
structure Modelfile where
  name : Str
  arch : Str
  family : Str
  format : Str
  paramsize : Str
  precision : Str
  quantization : Str
  config : List Str
  model : List Str
  code : List Str
  dataset : List Str
  doc : List Str
deriving DecidableEq, Repr

/-- The all-empty Modelfile the parser starts from. -/
def emptyMF : Modelfile := ⟨[], [], [], [], [], [], [], [], [], [], [], []⟩

instance : DecidableEq (Except Str Modelfile) := fun x y =>
  match x, y with
  | .ok a, .ok b =>
    if h : a = b then isTrue (by rw [h])
    else isFalse (fun hh => h (Except.ok.inj hh))
  | .error a, .error b =>
    if h : a = b then isTrue (by rw [h])
    else isFalse (fun hh => h (Except.error.inj hh))
  | .ok _, .error _ => isFalse (fun hh => by cases hh)
  | .error _, .ok _ => isFalse (fun hh => by cases hh)

/-- Hashset-like insertion: adding a value already in the set is a no-op. -/
def addVal (s : List Str) (v : Str) : List Str :=
  if v ∈ s then s else s ++ [v]

/-- The seven single-valued Modelfile fields. -/
inductive SField where
  | name | arch | family | format | paramsize | precision | quantization
deriving DecidableEq, Repr, Fintype

/-- The five multi-valued Modelfile fields. -/
inductive MField where
  | config | model | code | dataset | doc
deriving DecidableEq, Repr, Fintype

/-- Uppercase directive keyword of a single-valued field. -/
def kwS : SField → Str
  | .name => "NAME".data
  | .arch => "ARCH".data
  | .family => "FAMILY".data
  | .format => "FORMAT".data
  | .paramsize => "PARAMSIZE".data
  | .precision => "PRECISION".data
  | .quantization => "QUANTIZATION".data

/-- Lowercase field name used in duplicate-directive error messages. -/
def lowS : SField → Str
  | .name => "name".data
  | .arch => "arch".data
  | .family => "family".data
  | .format => "format".data
  | .paramsize => "paramsize".data
  | .precision => "precision".data
  | .quantization => "quantization".data

/-- Uppercase directive keyword of a multi-valued field. -/
def kwM : MField → Str
  | .config => "CONFIG".data
  | .model => "MODEL".data
  | .code => "CODE".data
  | .dataset => "DATASET".data
  | .doc => "DOC".data

/-- Read a single-valued field. -/
def getS (mf : Modelfile) : SField → Str
  | .name => mf.name
  | .arch => mf.arch
  | .family => mf.family
  | .format => mf.format
  | .paramsize => mf.paramsize
  | .precision => mf.precision
  | .quantization => mf.quantization

/-- Write a single-valued field. -/
def setS (mf : Modelfile) (f : SField) (v : Str) : Modelfile :=
  match f with
  | .name => { mf with name := v }
  | .arch => { mf with arch := v }
  | .family => { mf with family := v }
  | .format => { mf with format := v }
  | .paramsize => { mf with paramsize := v }
  | .precision => { mf with precision := v }
  | .quantization => { mf with quantization := v }

/-- Read a multi-valued field. -/
def getM (mf : Modelfile) : MField → List Str
  | .config => mf.config
  | .model => mf.model
  | .code => mf.code
  | .dataset => mf.dataset
  | .doc => mf.doc

/-- Insert into a multi-valued field. -/
def addM (mf : Modelfile) (f : MField) (v : Str) : Modelfile :=
  match f with
  | .config => { mf with config := addVal mf.config v }
  | .model => { mf with model := addVal mf.model v }
  | .code => { mf with code := addVal mf.code v }
  | .dataset => { mf with dataset := addVal mf.dataset v }
  | .doc => { mf with doc := addVal mf.doc v }

/-- Error text `parse error on line N: <line>`, as asserted by
`TestNewModelfile` (the parser's counter `n` is the 0-based physical index
of the offending line). -/
def parseErrAt (n : Nat) (line : Str) : Str :=
  "parse error on line ".data ++ natStr n ++ ": ".data ++ line

/-- Error text `duplicate <field> command on line N`. -/
def dupErrAt (f : SField) (n : Nat) : Str :=
  "duplicate ".data ++ lowS f ++ " command on line ".data ++ natStr n

/-- Classify a directive keyword token (only the uppercase forms are
recognised, as the spec's design notes record for the parser). -/
def cmdOf (cmd : Str) : Option (MField ⊕ SField) :=
  if cmd = kwM .config then some (Sum.inl .config)
  else if cmd = kwM .model then some (Sum.inl .model)
  else if cmd = kwM .code then some (Sum.inl .code)
  else if cmd = kwM .dataset then some (Sum.inl .dataset)
  else if cmd = kwM .doc then some (Sum.inl .doc)
  else if cmd = kwS .name then some (Sum.inr .name)
  else if cmd = kwS .arch then some (Sum.inr .arch)
  else if cmd = kwS .family then some (Sum.inr .family)
  else if cmd = kwS .format then some (Sum.inr .format)
  else if cmd = kwS .paramsize then some (Sum.inr .paramsize)
  else if cmd = kwS .precision then some (Sum.inr .precision)
  else if cmd = kwS .quantization then some (Sum.inr .quantization)
  else none

/-- One step of the parser on an already trimmed line: blank lines and `#`
comments are skipped, a known keyword with exactly one argument updates
the Modelfile (single-valued directives reject reassignment), anything
else is `parse error on line N: <line>`. -/
def procTrimmed (mf : Modelfile) (n : Nat) (line : Str) : Except Str Modelfile :=
  if line = [] then .ok mf
  else if line.head? = some '#' then .ok mf
  else
    match fields line with
    | cmd :: v :: rest =>
      if rest ≠ [] then .error (parseErrAt n line)
      else
        match cmdOf cmd with
        | some (Sum.inl f) => .ok (addM mf f v)
        | some (Sum.inr f) =>
          if getS mf f ≠ [] then .error (dupErrAt f n) else .ok (setS mf f v)
        | none => .error (parseErrAt n line)
    | _ => .error (parseErrAt n line)

/-- Modelled from the spec: one step of the Modelfile parser, absent from
the source tree (only its tests survive there).  The raw physical line is
trimmed before classification.  The counter `n` follows the repository's
parser tests, which report the 0-based physical index of the line
(`TestNewModelfile` expects `duplicate name command on line 4` for a
second `NAME` on the fifth physical line). -/
def procLine (mf : Modelfile) (n : Nat) (raw : Str) : Except Str Modelfile :=
  procTrimmed mf n (trim raw)

/-- Run the parser over a list of physical lines, counter starting at `n`. -/
def parseFrom (mf : Modelfile) (n : Nat) : List Str → Except Str Modelfile
  | [] => .ok mf
  | l :: ls =>
    match procLine mf n l with
    | .error e => .error e
    | .ok mf2 => parseFrom mf2 (n + 1) ls

/-- Parse a list of physical lines into a Modelfile. -/
def parseLines (ls : List Str) : Except Str Modelfile := parseFrom emptyMF 0 ls

/-- Modelled from the spec: `parse(text) → Modelfile | ParseError`, the
contract of the Modelfile parser (absent from the source tree). -/
def parse (s : Str) : Except Str Modelfile := parseLines (splitLines s)

/-- Convenience wrapper taking a Lean string literal. -/
def parseText (s : String) : Except Str Modelfile := parse s.data

/-- Lexicographic order on character lists (the order `sort.Strings` uses
when the renderer emits a multi-valued set). -/
def strLe : Str → Str → Bool
  | [], _ => true
  | _ :: _, [] => false
  | a :: as, b :: bs => if a = b then strLe as bs else decide (a < b)

/-- Ordered insertion for insertion sort. -/
def insertLe (le : α → α → Bool) (a : α) : List α → List α
  | [] => [a]
  | b :: bs => if le a b then a :: b :: bs else b :: insertLe le a bs

/-- Insertion sort by a boolean comparator. -/
def sortLe (le : α → α → Bool) : List α → List α
  | [] => []
  | a :: as => insertLe le a (sortLe le as)

/-- A single-valued section of the rendered Modelfile: comment heading plus
one directive line, omitted entirely when the field is empty. -/
def sSec (f : SField) (hdr : String) (v : Str) : List Str :=
  if v = [] then [] else [hdr.data, kwS f ++ ' ' :: v]

/-- A multi-valued section of the rendered Modelfile: comment heading plus
one directive line per value in sorted order, omitted when the set is
empty. -/
def mSec (f : MField) (hdr : String) (vs : List Str) : List Str :=
  if vs = [] then []
  else hdr.data :: (sortLe strLe vs).map (fun v => kwM f ++ ' ' :: v)

/-- Modelled from the spec: the physical lines of `modelfile.Content`
(absent from the source tree), in the canonical section order pinned by
`TestModelfile_Content` — a `# Generated at <ts>` header, the seven
scalars, then `CONFIG`, `DOC`, `CODE`, `MODEL`, `DATASET` sets, each with
its per-field comment heading and with empty fields omitted.  The
timestamp is injected as `ts`. -/
def renderLines (ts : Str) (mf : Modelfile) : List Str :=
  ("# Generated at ".data ++ ts) ::
    (sSec .name "# Model name" mf.name ++
      sSec .arch "# Model architecture" mf.arch ++
      sSec .family "# Model family" mf.family ++
      sSec .format "# Model format" mf.format ++
      sSec .paramsize "# Model paramsize" mf.paramsize ++
      sSec .precision "# Model precision" mf.precision ++
      sSec .quantization "# Model quantization" mf.quantization ++
      mSec .config "# Config files" mf.config ++
      mSec .doc "# Documentation files" mf.doc ++
      mSec .code "# Code files" mf.code ++
      mSec .model "# Model files" mf.model ++
      mSec .dataset "# Dataset files" mf.dataset)

/-- Modelled from the spec: `modelfile.Content`, the rendered Modelfile
text embedded in the manifest annotation. -/
def render (ts : Str) (mf : Modelfile) : Str := joinLines (renderLines ts mf)

/-- A well-formed directive value: nonempty, no whitespace, no newline —
what the grammar's single whitespace-delimited `VALUE` token admits. -/
def goodTok (v : Str) : Prop := v ≠ [] ∧ ∀ c ∈ v, isWS c = false ∧ c ≠ '\n'

instance (v : Str) : Decidable (goodTok v) := by
  unfold goodTok; infer_instance

theorem splitLines_no_nl (l : Str) (h : '\n' ∉ l) : splitLines l = [l] := by
  induction l with
  | nil => rfl
  | cons c cs ih =>
    have hc : ¬c = '\n' := fun hc => h (hc ▸ List.mem_cons_self c cs)
    have hcs : '\n' ∉ cs := fun hm => h (List.mem_cons_of_mem c hm)
    simp only [splitLines, if_neg hc, ih hcs]

theorem splitLines_nl (l rest : Str) (h : '\n' ∉ l) :
    splitLines (l ++ '\n' :: rest) = l :: splitLines rest := by
  induction l with
  | nil => simp [splitLines]
  | cons c cs ih =>
    have hc : ¬c = '\n' := fun hc => h (hc ▸ List.mem_cons_self c cs)
    have hcs : '\n' ∉ cs := fun hm => h (List.mem_cons_of_mem c hm)
    have := ih hcs
    simp only [List.cons_append, splitLines, if_neg hc, List.append_eq, this]

theorem splitLines_joinLines (ls : List Str) (h : ∀ l ∈ ls, '\n' ∉ l)
    (hne : ls ≠ []) : splitLines (joinLines ls) = ls := by
  induction ls with
  | nil => exact absurd rfl hne
  | cons l ls ih =>
    cases ls with
    | nil => exact splitLines_no_nl l (h l (List.mem_cons_self _ _))
    | cons l2 ls2 =>
      have h1 : '\n' ∉ l := h l (List.mem_cons_self _ _)
      have h2 : ∀ x ∈ l2 :: ls2, '\n' ∉ x := fun x hx =>
        h x (List.mem_cons_of_mem l hx)
      simp only [joinLines, splitLines_nl l _ h1, ih h2 (by simp)]

theorem parseFrom_append (mf : Modelfile) (n : Nat) (a b : List Str) :
    parseFrom mf n (a ++ b) =
      match parseFrom mf n a with
      | .error e => .error e
      | .ok mf2 => parseFrom mf2 (n + a.length) b := by
  induction a generalizing mf n with
  | nil => simp [parseFrom]
  | cons l ls ih =>
    simp only [List.cons_append, parseFrom, List.append_eq]
    cases procLine mf n l with
    | error e => rfl
    | ok mf2 =>
      show parseFrom mf2 (n + 1) (ls ++ b) =
        match parseFrom mf2 (n + 1) ls with
        | .error e => .error e
        | .ok mf3 => parseFrom mf3 (n + (l :: ls).length) b
      rw [ih mf2 (n + 1)]
      simp only [List.length_cons]
      cases parseFrom mf2 (n + 1) ls with
      | error e => rfl
      | ok mf3 =>
        rw [show n + 1 + ls.length = n + (ls.length + 1) from by omega]

theorem dropWhile_eq_self_of_head {p : Char → Bool} {s : Str}
    (h : ∀ c, s.head? = some c → p c = false) : s.dropWhile p = s := by
  cases s with
  | nil => rfl
  | cons c t => simp [List.dropWhile, h c rfl]

theorem trim_eq_self {s : Str}
    (h1 : ∀ c, s.head? = some c → isWS c = false)
    (h2 : ∀ c, s.reverse.head? = some c → isWS c = false) : trim s = s := by
  unfold trim
  rw [dropWhile_eq_self_of_head h1, dropWhile_eq_self_of_head h2,
    List.reverse_reverse]

/-- The head of the reverse of a nonempty all-good token is a non-space
character of the token. -/
theorem reverse_head_nonWS {v : Str} (hv : goodTok v) :
    ∀ c, v.reverse.head? = some c → isWS c = false := by
  intro c hc
  have hm : c ∈ v.reverse := by
    cases hrev : v.reverse with
    | nil => rw [hrev] at hc; simp at hc
    | cons a t =>
      rw [hrev] at hc
      simp only [List.head?_cons, Option.some.injEq] at hc
      rw [← hc]
      exact List.mem_cons_self _ _
  exact (hv.2 c (List.mem_reverse.mp hm)).1

theorem fieldsAux_all_nonWS (v acc : Str) (hv : ∀ c ∈ v, isWS c = false)
    (hne : acc.reverse ++ v ≠ []) : fieldsAux v acc = [acc.reverse ++ v] := by
  induction v generalizing acc with
  | nil =>
    have hacc : ¬acc = [] := by
      intro h; apply hne; simp [h]
    simp only [fieldsAux, if_neg (by simpa using hacc), List.append_nil]
  | cons c cs ih =>
    have hc : isWS c = false := hv c (List.mem_cons_self _ _)
    have hcs : ∀ x ∈ cs, isWS x = false := fun x hx =>
      hv x (List.mem_cons_of_mem c hx)
    simp only [fieldsAux, hc, Bool.false_eq_true, if_false,
      ih (c :: acc) hcs (by simp)]
    simp

theorem fieldsAux_token_sp (w rest acc : Str) (hw : ∀ c ∈ w, isWS c = false)
    (hne : acc.reverse ++ w ≠ []) :
    fieldsAux (w ++ ' ' :: rest) acc = (acc.reverse ++ w) :: fieldsAux rest [] := by
  induction w generalizing acc with
  | nil =>
    have hacc : ¬acc = [] := by intro h; apply hne; simp [h]
    simp only [List.nil_append, fieldsAux, show isWS ' ' = true from rfl,
      if_true, if_neg (by simpa using hacc), List.append_nil]
  | cons c cs ih =>
    have hc : isWS c = false := hw c (List.mem_cons_self _ _)
    have hcs : ∀ x ∈ cs, isWS x = false := fun x hx =>
      hw x (List.mem_cons_of_mem c hx)
    rw [List.cons_append]
    rw [show fieldsAux (c :: (cs ++ ' ' :: rest)) acc =
        fieldsAux (cs ++ ' ' :: rest) (c :: acc) from by simp [fieldsAux, hc]]
    rw [ih (c :: acc) hcs (by simp)]
    simp

/-- Tokenising a `KEYWORD value` line yields exactly the two tokens. -/
theorem fields_kw_val (kw v : Str) (hkw : ∀ c ∈ kw, isWS c = false)
    (hkwne : kw ≠ []) (hv : goodTok v) : fields (kw ++ ' ' :: v) = [kw, v] := by
  unfold fields
  rw [fieldsAux_token_sp kw v [] hkw (by simpa using hkwne)]
  rw [fieldsAux_all_nonWS v [] (fun c hc => (hv.2 c hc).1) (by simpa using hv.1)]
  simp

theorem headMem {α} {l : List α} {a : α} (h : l.head? = some a) : a ∈ l := by
  cases l with
  | nil => simp at h
  | cons b t =>
    simp only [List.head?_cons, Option.some.injEq] at h
    rw [← h]
    exact List.mem_cons_self _ _

theorem head?_append_left {α} (a b : List α) (h : a ≠ []) :
    (a ++ b).head? = a.head? := by
  cases a with
  | nil => exact absurd rfl h
  | cons c t => rfl

/-- The three facts about every single-valued keyword token the parser
lemmas need: nonempty, whitespace- and hash-free, and classified to its
field. -/
theorem kwSFacts (f : SField) :
    kwS f ≠ [] ∧ (∀ c ∈ kwS f, isWS c = false ∧ c ≠ '#') ∧
      cmdOf (kwS f) = some (Sum.inr f) := by
  cases f <;> exact ⟨by decide, by decide, by decide⟩

/-- The three facts about every multi-valued keyword token. -/
theorem kwMFacts (f : MField) :
    kwM f ≠ [] ∧ (∀ c ∈ kwM f, isWS c = false ∧ c ≠ '#') ∧
      cmdOf (kwM f) = some (Sum.inl f) := by
  cases f <;> exact ⟨by decide, by decide, by decide⟩

/-- A `KEYWORD value` directive line is already trimmed. -/
theorem trim_kw_line (kw v : Str) (hkwne : kw ≠ [])
    (hkwWS : ∀ c ∈ kw, isWS c = false) (hv : goodTok v) :
    trim (kw ++ ' ' :: v) = kw ++ ' ' :: v := by
  apply trim_eq_self
  · intro c hc
    rw [head?_append_left kw _ hkwne] at hc
    exact hkwWS c (headMem hc)
  · intro c hc
    rw [List.reverse_append, List.reverse_cons] at hc
    have hvr : v.reverse ≠ [] := by
      intro h
      exact hv.1 (by simpa using congrArg List.reverse h)
    rw [List.append_assoc, head?_append_left _ _ hvr] at hc
    exact reverse_head_nonWS hv c hc

theorem procTrimmed_blank (mf : Modelfile) (n : Nat) :
    procTrimmed mf n [] = .ok mf := rfl

theorem procTrimmed_comment {mf : Modelfile} {n : Nat} {line : Str}
    (h : line.head? = some '#') : procTrimmed mf n line = .ok mf := by
  have hne : line ≠ [] := by
    intro he
    rw [he] at h
    simp at h
  unfold procTrimmed
  rw [if_neg hne, if_pos h]

/-- Processing a well-formed multi-valued directive line adds the value. -/
theorem procTrimmed_mVal (f : MField) (mf : Modelfile) (n : Nat) (v : Str)
    (hv : goodTok v) :
    procTrimmed mf n (kwM f ++ ' ' :: v) = .ok (addM mf f v) := by
  obtain ⟨hne, hWS, hcmd⟩ := kwMFacts f
  have hlne : kwM f ++ ' ' :: v ≠ [] := fun h => hne (List.append_eq_nil.mp h).1
  have hhash : ¬(kwM f ++ ' ' :: v).head? = some '#' := by
    rw [head?_append_left _ _ hne]
    intro h
    exact (hWS _ (headMem h)).2 rfl
  unfold procTrimmed
  rw [if_neg hlne, if_neg hhash,
    fields_kw_val _ _ (fun c hc => (hWS c hc).1) hne hv]
  dsimp only
  rw [if_neg (by simp), hcmd]

/-- Processing a well-formed single-valued directive line on a Modelfile
whose field is still unset assigns the value. -/
theorem procTrimmed_sVal (f : SField) (mf : Modelfile) (n : Nat) (v : Str)
    (hv : goodTok v) (he : getS mf f = []) :
    procTrimmed mf n (kwS f ++ ' ' :: v) = .ok (setS mf f v) := by
  obtain ⟨hne, hWS, hcmd⟩ := kwSFacts f
  have hlne : kwS f ++ ' ' :: v ≠ [] := fun h => hne (List.append_eq_nil.mp h).1
  have hhash : ¬(kwS f ++ ' ' :: v).head? = some '#' := by
    rw [head?_append_left _ _ hne]
    intro h
    exact (hWS _ (headMem h)).2 rfl
  unfold procTrimmed
  rw [if_neg hlne, if_neg hhash,
    fields_kw_val _ _ (fun c hc => (hWS c hc).1) hne hv]
  dsimp only
  rw [if_neg (by simp), hcmd]
  dsimp only
  rw [if_neg (by simp [he])]

/-- Processing a single-valued directive whose field is already set fails
with the duplicate-command error at the current counter value. -/
theorem procTrimmed_sDup (f : SField) (mf : Modelfile) (n : Nat) (v : Str)
    (hv : goodTok v) (hne2 : getS mf f ≠ []) :
    procTrimmed mf n (kwS f ++ ' ' :: v) = .error (dupErrAt f n) := by
  obtain ⟨hne, hWS, hcmd⟩ := kwSFacts f
  have hlne : kwS f ++ ' ' :: v ≠ [] := fun h => hne (List.append_eq_nil.mp h).1
  have hhash : ¬(kwS f ++ ' ' :: v).head? = some '#' := by
    rw [head?_append_left _ _ hne]
    intro h
    exact (hWS _ (headMem h)).2 rfl
  unfold procTrimmed
  rw [if_neg hlne, if_neg hhash,
    fields_kw_val _ _ (fun c hc => (hWS c hc).1) hne hv]
  dsimp only
  rw [if_neg (by simp), hcmd]
  dsimp only
  rw [if_pos hne2]

/-- Behaviour of `procLine` on a well-formed multi-valued directive line. -/
theorem procLine_mVal (f : MField) (mf : Modelfile) (n : Nat) (v : Str)
    (hv : goodTok v) : procLine mf n (kwM f ++ ' ' :: v) = .ok (addM mf f v) := by
  unfold procLine
  rw [trim_kw_line _ _ (kwMFacts f).1 (fun c hc => ((kwMFacts f).2.1 c hc).1) hv]
  exact procTrimmed_mVal f mf n v hv

/-- Behaviour of `procLine` on a well-formed single-valued directive line. -/
theorem procLine_sVal (f : SField) (mf : Modelfile) (n : Nat) (v : Str)
    (hv : goodTok v) (he : getS mf f = []) :
    procLine mf n (kwS f ++ ' ' :: v) = .ok (setS mf f v) := by
  unfold procLine
  rw [trim_kw_line _ _ (kwSFacts f).1 (fun c hc => ((kwSFacts f).2.1 c hc).1) hv]
  exact procTrimmed_sVal f mf n v hv he

/-- Behaviour of `procLine` on a duplicate single-valued directive line. -/
theorem procLine_sDup (f : SField) (mf : Modelfile) (n : Nat) (v : Str)
    (hv : goodTok v) (hne2 : getS mf f ≠ []) :
    procLine mf n (kwS f ++ ' ' :: v) = .error (dupErrAt f n) := by
  unfold procLine
  rw [trim_kw_line _ _ (kwSFacts f).1 (fun c hc => ((kwSFacts f).2.1 c hc).1) hv]
  exact procTrimmed_sDup f mf n v hv hne2

theorem procLine_comment {mf : Modelfile} {n : Nat} {raw : Str}
    (h : (trim raw).head? = some '#') : procLine mf n raw = .ok mf :=
  procTrimmed_comment h

theorem parseFrom_cons_ok {mf mf2 : Modelfile} {n : Nat} {l : Str}
    {ls : List Str} (h : procLine mf n l = .ok mf2) :
    parseFrom mf n (l :: ls) = parseFrom mf2 (n + 1) ls := by
  simp only [parseFrom, h]

theorem parseFrom_cons_err {mf : Modelfile} {n : Nat} {l : Str} {ls : List Str}
    {e : Str} (h : procLine mf n l = .error e) :
    parseFrom mf n (l :: ls) = .error e := by
  simp only [parseFrom, h]

theorem parseFrom_block {mf mf2 : Modelfile} {n : Nat} {a : List Str}
    (b : List Str) (h : parseFrom mf n a = .ok mf2) :
    parseFrom mf n (a ++ b) = parseFrom mf2 (n + a.length) b := by
  rw [parseFrom_append, h]

theorem dropWhile_append_last {p : Char → Bool} {xs : Str} {c : Char}
    (h : p c = false) : ∃ ys, (xs ++ [c]).dropWhile p = ys ++ [c] := by
  induction xs with
  | nil => exact ⟨[], by simp [List.dropWhile, h]⟩
  | cons x t ih =>
    by_cases px : p x = true
    · obtain ⟨ys, hys⟩ := ih
      exact ⟨ys, by simp [List.dropWhile, px, hys]⟩
    · exact ⟨x :: t, by simp [List.dropWhile, Bool.of_not_eq_true px]⟩

theorem trim_cons_head {c : Char} (l : Str) (hc : isWS c = false) :
    (trim (c :: l)).head? = some c := by
  unfold trim
  rw [@dropWhile_eq_self_of_head isWS (c :: l) (fun d hd => by
    simp only [List.head?_cons, Option.some.injEq] at hd
    rw [← hd]; exact hc)]
  rw [List.reverse_cons]
  obtain ⟨ys, hys⟩ := @dropWhile_append_last isWS l.reverse c hc
  rw [hys, List.reverse_append]
  simp

theorem setS_nil_self (mf : Modelfile) (f : SField) (he : getS mf f = []) :
    setS mf f [] = mf := by
  cases f <;> (cases mf; simp_all [getS, setS])

theorem getS_setS_same (mf : Modelfile) (f : SField) (v : Str) :
    getS (setS mf f v) f = v := by cases f <;> rfl

theorem getS_setS_other (mf : Modelfile) (f g : SField) (v : Str) (h : f ≠ g) :
    getS (setS mf f v) g = getS mf g := by
  cases f <;> cases g <;> first | rfl | exact absurd rfl h

theorem getM_setS (mf : Modelfile) (f : SField) (g : MField) (v : Str) :
    getM (setS mf f v) g = getM mf g := by cases f <;> cases g <;> rfl

theorem getS_addM (mf : Modelfile) (f : MField) (g : SField) (v : Str) :
    getS (addM mf f v) g = getS mf g := by cases f <;> cases g <;> rfl

theorem getM_addM_same (mf : Modelfile) (f : MField) (v : Str) :
    getM (addM mf f v) f = addVal (getM mf f) v := by cases f <;> rfl

theorem getM_addM_other (mf : Modelfile) (f g : MField) (v : Str) (h : f ≠ g) :
    getM (addM mf f v) g = getM mf g := by
  cases f <;> cases g <;> first | rfl | exact absurd rfl h

theorem getS_foldl_addM (f : MField) (g : SField) (l : List Str)
    (mf : Modelfile) :
    getS (l.foldl (fun m v => addM m f v) mf) g = getS mf g := by
  induction l generalizing mf with
  | nil => rfl
  | cons v vs ih => rw [List.foldl_cons, ih, getS_addM]

theorem getM_foldl_addM_same (f : MField) (l : List Str) (mf : Modelfile) :
    getM (l.foldl (fun m v => addM m f v) mf) f =
      l.foldl addVal (getM mf f) := by
  induction l generalizing mf with
  | nil => rfl
  | cons v vs ih => rw [List.foldl_cons, ih, List.foldl_cons, getM_addM_same]

theorem getM_foldl_addM_other (f g : MField) (l : List Str) (mf : Modelfile)
    (h : f ≠ g) :
    getM (l.foldl (fun m v => addM m f v) mf) g = getM mf g := by
  induction l generalizing mf with
  | nil => rfl
  | cons v vs ih => rw [List.foldl_cons, ih, getM_addM_other _ _ _ _ h]

theorem mem_addVal (s : List Str) (w v : Str) :
    v ∈ addVal s w ↔ v ∈ s ∨ v = w := by
  unfold addVal
  by_cases hw : w ∈ s
  · rw [if_pos hw]
    constructor
    · exact Or.inl
    · rintro (h | rfl)
      · exact h
      · exact hw
  · rw [if_neg hw]
    simp

theorem mem_foldl_addVal (l : List Str) (s : List Str) (v : Str) :
    v ∈ l.foldl addVal s ↔ v ∈ s ∨ v ∈ l := by
  induction l generalizing s with
  | nil => simp
  | cons w ws ih =>
    rw [List.foldl_cons, ih, mem_addVal]
    constructor
    · rintro ((h | rfl) | h)
      · exact Or.inl h
      · exact Or.inr (List.mem_cons_self _ _)
      · exact Or.inr (List.mem_cons_of_mem _ h)
    · rintro (h | h)
      · exact Or.inl (Or.inl h)
      · rcases List.mem_cons.mp h with rfl | h
        · exact Or.inl (Or.inr rfl)
        · exact Or.inr h

theorem insertLe_perm (le : α → α → Bool) (a : α) (l : List α) :
    List.Perm (insertLe le a l) (a :: l) := by
  induction l with
  | nil => exact List.Perm.refl _
  | cons b bs ih =>
    unfold insertLe
    by_cases h : le a b = true
    · rw [if_pos h]
    · rw [if_neg h]
      exact (List.Perm.cons b ih).trans (List.Perm.swap a b bs)

theorem sortLe_perm (le : α → α → Bool) (l : List α) :
    List.Perm (sortLe le l) l := by
  induction l with
  | nil => exact List.Perm.refl _
  | cons a as ih =>
    exact (insertLe_perm le a (sortLe le as)).trans (List.Perm.cons a ih)

theorem mem_sortLe (le : α → α → Bool) (l : List α) (v : α) :
    v ∈ sortLe le l ↔ v ∈ l := (sortLe_perm le l).mem_iff

/-- Parsing a rendered single-valued section assigns the field. -/
theorem parse_sSec (f : SField) (hdr : String) (v : Str) (mf : Modelfile)
    (n : Nat) (hv : v = [] ∨ goodTok v) (he : getS mf f = [])
    (hhdr : (trim hdr.data).head? = some '#') :
    parseFrom mf n (sSec f hdr v) = .ok (setS mf f v) := by
  rcases hv with rfl | hv
  · rw [sSec, if_pos rfl, setS_nil_self mf f he]
    rfl
  · rw [sSec, if_neg hv.1]
    rw [parseFrom_cons_ok (procLine_comment hhdr)]
    rw [parseFrom_cons_ok (procLine_sVal f mf (n + 1) v hv he)]
    rfl

theorem parse_mapLines (f : MField) (l : List Str) (mf : Modelfile) (n : Nat)
    (h : ∀ v ∈ l, goodTok v) :
    parseFrom mf n (l.map (fun v => kwM f ++ ' ' :: v)) =
      .ok (l.foldl (fun m v => addM m f v) mf) := by
  induction l generalizing mf n with
  | nil => rfl
  | cons v vs ih =>
    rw [List.map_cons,
      parseFrom_cons_ok (procLine_mVal f mf n v (h v (List.mem_cons_self _ _)))]
    exact ih _ _ (fun x hx => h x (List.mem_cons_of_mem _ hx))

/-- Parsing a rendered multi-valued section adds all the (sorted) values. -/
theorem parse_mSec (f : MField) (hdr : String) (vs : List Str) (mf : Modelfile)
    (n : Nat) (hvs : ∀ v ∈ vs, goodTok v)
    (hhdr : (trim hdr.data).head? = some '#') :
    parseFrom mf n (mSec f hdr vs) =
      .ok ((sortLe strLe vs).foldl (fun m v => addM m f v) mf) := by
  by_cases hb : vs = []
  · subst hb
    rw [mSec, if_pos rfl]
    rfl
  · rw [mSec, if_neg hb, parseFrom_cons_ok (procLine_comment hhdr)]
    exact parse_mapLines f _ _ _ (fun v hv => hvs v ((mem_sortLe _ _ _).mp hv))

theorem kwS_no_nl (f : SField) : '\n' ∉ kwS f := by cases f <;> decide

theorem kwM_no_nl (f : MField) : '\n' ∉ kwM f := by cases f <;> decide

theorem no_nl_sSec {f : SField} {hdr : String} {v : Str}
    (hhdr : '\n' ∉ hdr.data) (hv : v = [] ∨ goodTok v) :
    ∀ l ∈ sSec f hdr v, '\n' ∉ l := by
  intro l hl
  unfold sSec at hl
  rcases hv with rfl | hv
  · rw [if_pos rfl] at hl
    simp at hl
  · rw [if_neg hv.1] at hl
    rcases List.mem_cons.mp hl with rfl | hl
    · exact hhdr
    · rcases List.mem_cons.mp hl with rfl | hl
      · intro hc
        rcases List.mem_append.mp hc with h | h
        · exact kwS_no_nl f h
        · rcases List.mem_cons.mp h with h | h
          · exact absurd h (by decide)
          · exact (hv.2 _ h).2 rfl
      · simp at hl

theorem no_nl_mSec {f : MField} {hdr : String} {vs : List Str}
    (hhdr : '\n' ∉ hdr.data) (hvs : ∀ v ∈ vs, goodTok v) :
    ∀ l ∈ mSec f hdr vs, '\n' ∉ l := by
  intro l hl
  unfold mSec at hl
  by_cases hb : vs = []
  · rw [if_pos hb] at hl
    simp at hl
  · rw [if_neg hb] at hl
    rcases List.mem_cons.mp hl with rfl | hl
    · exact hhdr
    · obtain ⟨v, hvmem, rfl⟩ := List.mem_map.mp hl
      have hv := hvs v ((mem_sortLe _ _ _).mp hvmem)
      intro hc
      rcases List.mem_append.mp hc with h | h
      · exact kwM_no_nl f h
      · rcases List.mem_cons.mp h with h | h
        · exact absurd h (by decide)
        · exact (hv.2 _ h).2 rfl

theorem renderLines_no_nl (ts : Str) (mf : Modelfile) (hts : '\n' ∉ ts)
    (hsc : ∀ f : SField, getS mf f = [] ∨ goodTok (getS mf f))
    (hmu : ∀ f : MField, ∀ v ∈ getM mf f, goodTok v) :
    ∀ l ∈ renderLines ts mf, '\n' ∉ l := by
  intro l hl
  rw [renderLines] at hl
  rcases List.mem_cons.mp hl with rfl | hl
  · intro hc
    rcases List.mem_append.mp hc with h | h
    · revert h
      decide
    · exact hts h
  · simp only [List.mem_append] at hl
    rcases hl with
      ((((((((((h | h) | h) | h) | h) | h) | h) | h) | h) | h) | h) | h
    · exact no_nl_sSec (by decide) (hsc .name) l h
    · exact no_nl_sSec (by decide) (hsc .arch) l h
    · exact no_nl_sSec (by decide) (hsc .family) l h
    · exact no_nl_sSec (by decide) (hsc .format) l h
    · exact no_nl_sSec (by decide) (hsc .paramsize) l h
    · exact no_nl_sSec (by decide) (hsc .precision) l h
    · exact no_nl_sSec (by decide) (hsc .quantization) l h
    · exact no_nl_mSec (by decide) (hmu .config) l h
    · exact no_nl_mSec (by decide) (hmu .doc) l h
    · exact no_nl_mSec (by decide) (hmu .code) l h
    · exact no_nl_mSec (by decide) (hmu .model) l h
    · exact no_nl_mSec (by decide) (hmu .dataset) l h

/-- The Modelfile state reached by re-parsing a rendered Modelfile: the
scalars assigned in section order, then each multi-valued set re-added in
sorted order. -/
def canonMF (mf : Modelfile) : Modelfile :=
  List.foldl (fun m v => addM m .dataset v)
    (List.foldl (fun m v => addM m .model v)
      (List.foldl (fun m v => addM m .code v)
        (List.foldl (fun m v => addM m .doc v)
          (List.foldl (fun m v => addM m .config v)
            (setS (setS (setS (setS (setS (setS (setS emptyMF .name mf.name)
              .arch mf.arch) .family mf.family) .format mf.format)
              .paramsize mf.paramsize) .precision mf.precision)
              .quantization mf.quantization)
            (sortLe strLe mf.config))
          (sortLe strLe mf.doc))
        (sortLe strLe mf.code))
      (sortLe strLe mf.model))
    (sortLe strLe mf.dataset)

set_option maxHeartbeats 2000000 in
/-- C5 amended: for every Modelfile whose values are well-formed directive
tokens — single nonempty, whitespace- and newline-free tokens, what the
grammar's `VALUE` admits — rendering it to text and re-parsing that text
yields the same seven scalar fields and the same sets for each of config,
model, code, dataset, doc; rendering omits directives whose field or
collection is empty (`sSec` and `mSec` emit nothing for an empty field,
and parsing the omitted section leaves the field at its empty initial
value).  The restriction to whitespace-free values is forced: see the
counterexample, where a scanner-produced path containing spaces renders
to a multi-token directive line whose re-parse fails. -/
theorem c5_render_parse_roundtrip (ts : Str) (mf : Modelfile)
    (hts : '\n' ∉ ts)
    (hsc : ∀ f : SField, getS mf f = [] ∨ goodTok (getS mf f))
    (hmu : ∀ f : MField, ∀ v ∈ getM mf f, goodTok v) :
    ∃ mf2, parse (render ts mf) = .ok mf2 ∧
      (∀ f : SField, getS mf2 f = getS mf f) ∧
      (∀ f : MField, ∀ v : Str, v ∈ getM mf2 f ↔ v ∈ getM mf f) := by
  have hsplit : splitLines (render ts mf) = renderLines ts mf := by
    unfold render
    exact splitLines_joinLines _ (renderLines_no_nl ts mf hts hsc hmu)
      (by rw [renderLines]; simp)
  have hhdrTs : (trim ("# Generated at ".data ++ ts)).head? = some '#' := by
    rw [show "# Generated at ".data ++ ts =
      '#' :: (" Generated at ".data ++ ts) from rfl]
    exact trim_cons_head _ (by decide)
  refine ⟨canonMF mf, ?_, ?_, ?_⟩
  · unfold parse
    rw [hsplit]
    unfold parseLines
    rw [renderLines]
    rw [parseFrom_cons_ok (procLine_comment hhdrTs)]
    simp only [List.append_assoc]
    rw [parseFrom_block _ (parse_sSec .name "# Model name" mf.name
      emptyMF _ (hsc .name) rfl (by decide))]
    rw [parseFrom_block _ (parse_sSec .arch "# Model architecture" mf.arch
      (setS emptyMF .name mf.name) _ (hsc .arch) rfl (by decide))]
    rw [parseFrom_block _ (parse_sSec .family "# Model family" mf.family
      (setS (setS emptyMF .name mf.name) .arch mf.arch) _
      (hsc .family) rfl (by decide))]
    rw [parseFrom_block _ (parse_sSec .format "# Model format" mf.format
      (setS (setS (setS emptyMF .name mf.name) .arch mf.arch)
        .family mf.family) _ (hsc .format) rfl (by decide))]
    rw [parseFrom_block _ (parse_sSec .paramsize "# Model paramsize"
      mf.paramsize
      (setS (setS (setS (setS emptyMF .name mf.name) .arch mf.arch)
        .family mf.family) .format mf.format) _
      (hsc .paramsize) rfl (by decide))]
    rw [parseFrom_block _ (parse_sSec .precision "# Model precision"
      mf.precision
      (setS (setS (setS (setS (setS emptyMF .name mf.name) .arch mf.arch)
        .family mf.family) .format mf.format) .paramsize mf.paramsize) _
      (hsc .precision) rfl (by decide))]
    rw [parseFrom_block _ (parse_sSec .quantization "# Model quantization"
      mf.quantization
      (setS (setS (setS (setS (setS (setS emptyMF .name mf.name)
        .arch mf.arch) .family mf.family) .format mf.format)
        .paramsize mf.paramsize) .precision mf.precision) _
      (hsc .quantization) rfl (by decide))]
    rw [parseFrom_block _ (parse_mSec .config "# Config files" mf.config
      _ _ (hmu .config) (by decide))]
    rw [parseFrom_block _ (parse_mSec .doc "# Documentation files" mf.doc
      _ _ (hmu .doc) (by decide))]
    rw [parseFrom_block _ (parse_mSec .code "# Code files" mf.code
      _ _ (hmu .code) (by decide))]
    rw [parseFrom_block _ (parse_mSec .model "# Model files" mf.model
      _ _ (hmu .model) (by decide))]
    rw [parse_mSec .dataset "# Dataset files" mf.dataset
      _ _ (hmu .dataset) (by decide)]
    rfl
  · intro f
    unfold canonMF
    rw [getS_foldl_addM, getS_foldl_addM, getS_foldl_addM, getS_foldl_addM,
      getS_foldl_addM]
    cases f <;> rfl
  · intro f v
    unfold canonMF
    cases f with
    | config =>
      rw [getM_foldl_addM_other .dataset .config _ _ (by decide),
        getM_foldl_addM_other .model .config _ _ (by decide),
        getM_foldl_addM_other .code .config _ _ (by decide),
        getM_foldl_addM_other .doc .config _ _ (by decide),
        getM_foldl_addM_same]
      rw [mem_foldl_addVal, getM_setS, getM_setS, getM_setS, getM_setS,
        getM_setS, getM_setS, getM_setS]
      simp [mem_sortLe, getM, emptyMF]
    | model =>
      rw [getM_foldl_addM_other .dataset .model _ _ (by decide),
        getM_foldl_addM_same,
        getM_foldl_addM_other .code .model _ _ (by decide),
        getM_foldl_addM_other .doc .model _ _ (by decide),
        getM_foldl_addM_other .config .model _ _ (by decide)]
      rw [mem_foldl_addVal, getM_setS, getM_setS, getM_setS, getM_setS,
        getM_setS, getM_setS, getM_setS]
      simp [mem_sortLe, getM, emptyMF]
    | code =>
      rw [getM_foldl_addM_other .dataset .code _ _ (by decide),
        getM_foldl_addM_other .model .code _ _ (by decide),
        getM_foldl_addM_same,
        getM_foldl_addM_other .doc .code _ _ (by decide),
        getM_foldl_addM_other .config .code _ _ (by decide)]
      rw [mem_foldl_addVal, getM_setS, getM_setS, getM_setS, getM_setS,
        getM_setS, getM_setS, getM_setS]
      simp [mem_sortLe, getM, emptyMF]
    | dataset =>
      rw [getM_foldl_addM_same,
        getM_foldl_addM_other .model .dataset _ _ (by decide),
        getM_foldl_addM_other .code .dataset _ _ (by decide),
        getM_foldl_addM_other .doc .dataset _ _ (by decide),
        getM_foldl_addM_other .config .dataset _ _ (by decide)]
      rw [mem_foldl_addVal, getM_setS, getM_setS, getM_setS, getM_setS,
        getM_setS, getM_setS, getM_setS]
      simp [mem_sortLe, getM, emptyMF]
    | doc =>
      rw [getM_foldl_addM_other .dataset .doc _ _ (by decide),
        getM_foldl_addM_other .model .doc _ _ (by decide),
        getM_foldl_addM_other .code .doc _ _ (by decide),
        getM_foldl_addM_same,
        getM_foldl_addM_other .config .doc _ _ (by decide)]
      rw [mem_foldl_addVal, getM_setS, getM_setS, getM_setS, getM_setS,
        getM_setS, getM_setS, getM_setS]
      simp [mem_sortLe, getM, emptyMF]

/-- Every successful parser step leaves the Modelfile unchanged, adds one
multi-valued entry, or assigns one scalar. -/
theorem procLine_ok_cases {mf : Modelfile} {n : Nat} {l : Str}
    {mf2 : Modelfile} (h : procLine mf n l = .ok mf2) :
    mf2 = mf ∨ (∃ f v, mf2 = addM mf f v) ∨ (∃ f v, mf2 = setS mf f v) := by
  unfold procLine procTrimmed at h
  split at h
  · exact Or.inl (Except.ok.inj h).symm
  · split at h
    · exact Or.inl (Except.ok.inj h).symm
    · split at h
      · split at h
        · cases h
        · split at h
          · exact Or.inr (Or.inl ⟨_, _, (Except.ok.inj h).symm⟩)
          · split at h
            · cases h
            · exact Or.inr (Or.inr ⟨_, _, (Except.ok.inj h).symm⟩)
          · cases h
      · cases h

theorem addVal_nodup {s : List Str} {v : Str} (h : s.Nodup) :
    (addVal s v).Nodup := by
  unfold addVal
  by_cases hv : v ∈ s
  · rw [if_pos hv]
    exact h
  · rw [if_neg hv]
    exact List.Nodup.append h (List.nodup_singleton v)
      (fun a ha hb => hv (by rw [List.mem_singleton.mp hb] at ha; exact ha))

theorem addM_nodup {mf : Modelfile} {f : MField} {v : Str}
    (hinv : ∀ g, (getM mf g).Nodup) : ∀ g, (getM (addM mf f v) g).Nodup := by
  intro g
  by_cases hfg : f = g
  · subst hfg
    rw [getM_addM_same]
    exact addVal_nodup (hinv f)
  · rw [getM_addM_other _ _ _ _ hfg]
    exact hinv g

/-- The parser never stores duplicates in a multi-valued set: repeated
values are coalesced. -/
theorem parseFrom_nodup (ls : List Str) (mf mf2 : Modelfile) (n : Nat)
    (hinv : ∀ g, (getM mf g).Nodup) (h : parseFrom mf n ls = .ok mf2) :
    ∀ g, (getM mf2 g).Nodup := by
  induction ls generalizing mf n with
  | nil =>
    cases (Except.ok.inj h)
    exact hinv
  | cons l ls ih =>
    unfold parseFrom at h
    cases hp : procLine mf n l with
    | error e => rw [hp] at h; cases h
    | ok mf3 =>
      rw [hp] at h
      have hinv3 : ∀ g, (getM mf3 g).Nodup := by
        rcases procLine_ok_cases hp with rfl | ⟨f, v, rfl⟩ | ⟨f, v, rfl⟩
        · exact hinv
        · exact addM_nodup hinv
        · intro g
          rw [getM_setS]
          exact hinv g
      exact ih mf3 (n + 1) hinv3 h

/-- Re-adding a value already present is a no-op (hashset coalescing). -/
theorem addM_mem_self {mf : Modelfile} {f : MField} {v : Str}
    (h : v ∈ getM mf f) : addM mf f v = mf := by
  cases f <;> (cases mf; simp_all [getM, addM, addVal])

/-- In a duplicate-free list a member is counted exactly once. -/
theorem count_eq_one {s : List Str} {v : Str} (hn : s.Nodup) (hm : v ∈ s) :
    s.count v = 1 := by
  induction s with
  | nil => cases hm
  | cons w ws ih =>
    rw [List.count_cons]
    rcases List.mem_cons.mp hm with rfl | hm2
    · have hnin : v ∉ ws := (List.nodup_cons.mp hn).1
      rw [List.count_eq_zero.mpr hnin]
      simp
    · have hne : ¬(v = w) := by
        rintro rfl
        exact (List.nodup_cons.mp hn).1 hm2
      rw [ih (List.nodup_cons.mp hn).2 hm2]
      simp [Ne.symm hne]

/-- A two-token line whose keyword is unknown is a parse error carrying
the current counter value. -/
theorem procTrimmed_unknown {mf : Modelfile} {n : Nat} {line cmd arg : Str}
    (hf : fields line = [cmd, arg]) (hc : cmdOf cmd = none)
    (hh : ¬line.head? = some '#') :
    procTrimmed mf n line = .error (parseErrAt n line) := by
  have hne : line ≠ [] := by
    intro h
    rw [h] at hf
    cases hf
  unfold procTrimmed
  rw [if_neg hne, if_neg hh, hf]
  dsimp only
  rw [if_neg (by simp), hc]

/-- The in-source test input for duplicate detection: a second `NAME` on
the fifth physical line (0-based index 4). -/
def c6Input : Str :=
  "\n# This is a comment\nMODEL adapter1\nNAME foo\nNAME bar\n\t\t".data

/-- C6 counterexample: on the repository's own duplicate-`NAME` test
input, the second `NAME` occurrence sits on physical line 5 (0-based
index 4), yet the parser reports `duplicate name command on line 4`, not
`... on line 5` — so the reported `N` is not the (1-based) physical line
of the second occurrence as the claim states. -/
theorem c6_counterexample :
    (splitLines c6Input).get? 4 = some "NAME bar".data ∧
    parse c6Input = .error "duplicate name command on line 4".data ∧
    parse c6Input ≠ .error "duplicate name command on line 5".data := by
  refine ⟨by decide, by decide, by decide⟩

/-- C6 amended: repeating a single-valued directive fails with exactly
`duplicate <field> command on line N`, where `<field>` is the lowercase
field name and `N` is the parser's 0-based physical index of the second
occurrence (its 1-based physical line minus one); repeating a
multi-valued directive with the same value parses successfully, leaves
the Modelfile unchanged, and the value appears exactly once in the
resulting set. -/
theorem c6_duplicate_detection :
    (∀ (f : SField) (pre : List Str) (mf : Modelfile) (v : Str),
      parseFrom emptyMF 0 pre = .ok mf → getS mf f ≠ [] → goodTok v →
      parseLines (pre ++ [kwS f ++ ' ' :: v]) = .error (dupErrAt f pre.length)) ∧
    (∀ (f : MField) (pre : List Str) (mf : Modelfile) (v : Str),
      parseFrom emptyMF 0 pre = .ok mf → goodTok v → v ∈ getM mf f →
      parseLines (pre ++ [kwM f ++ ' ' :: v]) = .ok mf ∧
        (getM mf f).count v = 1) := by
  constructor
  · intro f pre mf v hpre hset hv
    unfold parseLines
    rw [parseFrom_block _ hpre]
    simp only [Nat.zero_add]
    exact parseFrom_cons_err (procLine_sDup f mf _ v hv hset)
  · intro f pre mf v hpre hv hmem
    constructor
    · unfold parseLines
      rw [parseFrom_block _ hpre,
        parseFrom_cons_ok (procLine_mVal f mf _ v hv), addM_mem_self hmem]
      rfl
    · exact count_eq_one
        (parseFrom_nodup pre emptyMF mf 0
          (by intro g; cases g <;> exact List.nodup_nil) hpre f)
        hmem

/-- Witness for the amended C6: both parts applied to concrete inputs —
a duplicate `NAME` on index 1 and a repeated `CONFIG a` after a first
`CONFIG a`. -/
theorem c6_duplicate_detection_witness :
    parseLines (["NAME foo".data] ++ [kwS .name ++ ' ' :: "bar".data]) =
      .error (dupErrAt .name 1) ∧
    (parseLines (["CONFIG a".data] ++ [kwM .config ++ ' ' :: "a".data]) =
      .ok (addM emptyMF .config "a".data) ∧
      (getM (addM emptyMF .config "a".data) .config).count "a".data = 1) :=
  ⟨c6_duplicate_detection.1 .name ["NAME foo".data]
      (setS emptyMF .name "foo".data) "bar".data (by decide) (by decide)
      (by decide),
    c6_duplicate_detection.2 .config ["CONFIG a".data]
      (addM emptyMF .config "a".data) "a".data (by decide) (by decide)
      (by decide)⟩

/-- The spec's line-numbering example text. -/
def c7Input : Str := "\n\n# c\nINVALID foo\n".data

/-- C7 counterexample: on the spec's own example text the offending
`INVALID foo` sits on physical line 4 (0-based index 3), but the parser
reports `parse error on line 3: ...`, not line 4 — reported numbers are
the 0-based physical index, refuting both the concrete example and the
1-based counting rule. -/
theorem c7_counterexample :
    (splitLines c7Input).get? 3 = some "INVALID foo".data ∧
    parse c7Input = .error "parse error on line 3: INVALID foo".data ∧
    (∀ e : Str, parse c7Input = .error e →
      e ≠ "parse error on line 4".data) := by
  refine ⟨by decide, by decide, ?_⟩
  intro e he
  have : e = "parse error on line 3: INVALID foo".data := by
    have h2 : parse c7Input = .error "parse error on line 3: INVALID foo".data := by decide
    rw [he] at h2
    exact (Except.error.inj h2)
  rw [this]
  decide

/-- C7 amended: `parse("\n\n# c\nINVALID foo\n")` fails with
`parse error on line 3: INVALID foo`; in general the reported line number
is the 0-based physical index of the offending line (its 1-based physical
line minus one), counting every physical line including blanks and
comments. -/
theorem c7_line_numbering :
    parse c7Input = .error "parse error on line 3: INVALID foo".data ∧
    (∀ (pre : List Str) (mf : Modelfile) (bad cmd arg : Str),
      parseFrom emptyMF 0 pre = .ok mf →
      fields (trim bad) = [cmd, arg] → cmdOf cmd = none →
      ¬(trim bad).head? = some '#' →
      parseLines (pre ++ [bad]) =
        .error (parseErrAt pre.length (trim bad))) := by
  constructor
  · decide
  · intro pre mf bad cmd arg hpre hf hc hh
    unfold parseLines
    rw [parseFrom_block _ hpre]
    simp only [Nat.zero_add]
    exact parseFrom_cons_err (procTrimmed_unknown hf hc hh)

/-- Witness for the amended C7: the general rule applied to the spec's
example, split as three skipped lines and the offending fourth. -/
theorem c7_line_numbering_witness :
    parseLines ([[], [], "# c".data] ++ ["INVALID foo".data]) =
      .error (parseErrAt 3 (trim "INVALID foo".data)) :=
  c7_line_numbering.2 [[], [], "# c".data] emptyMF "INVALID foo".data
    "INVALID".data "foo".data (by decide) (by decide) (by decide) (by decide)

/-- A concrete Modelfile exercising nonempty and empty scalars and sets
for the round-trip witness. -/
def mfEx : Modelfile :=
  ⟨"name1".data, "arch1".data, [], [], [], [], [],
    ["config1".data], ["model1".data, "amodel".data], [], [],
    ["doc1".data]⟩

/-- A Modelfile whose model set holds the path
`dir with spaces/model.bin`, exactly the value the repository's scanner
test `special filename characters` synthesizes into a Modelfile. -/
def c5mfBad : Modelfile :=
  ⟨"special-chars".data, [], [], [], [], [], [], [],
    ["dir with spaces/model.bin".data], [], [], []⟩

/-- C5 counterexample: rendering `c5mfBad` emits the directive line
`MODEL dir with spaces/model.bin`, whose four whitespace-delimited tokens
fail re-parse with `parse error on line 4: ...` — so re-parsing the
rendered text does not yield the same sets for every Modelfile value, and
the unconditional round-trip claim is false. -/
theorem c5_counterexample :
    "dir with spaces/model.bin".data ∈ c5mfBad.model ∧
    parse (render "2024-01-01T00:00:00Z".data c5mfBad) =
      .error "parse error on line 4: MODEL dir with spaces/model.bin".data := by
  refine ⟨by decide, by decide⟩

/-- Witness for the amended C5: the round trip applied to a concrete
Modelfile (whitespace-free values) and timestamp. -/
theorem c5_render_parse_roundtrip_witness :
    ∃ mf2, parse (render "2024-01-01T00:00:00Z".data mfEx) = .ok mf2 ∧
      (∀ f : SField, getS mf2 f = getS mfEx f) ∧
      (∀ f : MField, ∀ v : Str, v ∈ getM mf2 f ↔ v ∈ getM mfEx f) :=
  c5_render_parse_roundtrip "2024-01-01T00:00:00Z".data mfEx (by decide)
    (by decide) (by decide)

/-! ### Workspace scanner (`NewModelfileByWorkspace`)

Modelled from the spec: the scanner implementation is absent from the
source tree; its behaviour is pinned to `TestNewModelfileByWorkspace`.
A workspace is a tree of named entries; the relevant keys of a root
`config.json` / `generation_config.json` (after JSON parsing, which is
external to the core) are carried on the file node, `none` standing for a
file that does not parse as a JSON object. -/

/-- The keys of a parsed root config file the scanner consumes. -/
structure CfgJson where
  model_type : Option Str
  torch_dtype : Option Str
  transformers_version : Option Str
deriving DecidableEq, Repr

/-- A workspace directory tree. -/
inductive Entry where
  | file (name : Str) (cfg : Option CfgJson)
  | dir (name : Str) (children : List Entry)
deriving Repr

/-- The pruning predicate: any component whose name begins with `.` or
equals `__pycache__` is skipped together with its whole subtree. -/
def skipName (n : Str) : Bool := n.head? = some '.' || n = "__pycache__".data

mutual

/-- Walk one entry, pruning skipped names; emits component paths. -/
def walkEntry (pre : List Str) : Entry → List (List Str)
  | .file n _ => if skipName n then [] else [pre ++ [n]]
  | .dir n cs => if skipName n then [] else walkEntries (pre ++ [n]) cs

/-- Walk a list of entries. -/
def walkEntries (pre : List Str) : List Entry → List (List Str)
  | [] => []
  | e :: es => walkEntry pre e ++ walkEntries pre es

end

/-- Forward-slash join of a component path. -/
def joinPath : List Str → Str
  | [] => []
  | [c] => c
  | c :: c2 :: cs => c ++ '/' :: joinPath (c2 :: cs)

/-- The extension, as `filepath.Ext`: the suffix from the last dot, empty when dotless. -/
def extOf (n : Str) : Str :=
  if '.' ∈ n then '.' :: (n.reverse.takeWhile (fun c => ¬c = '.')).reverse
  else []

/-- File categories recognised by the scanner. -/
inductive FileCat where
  | doc | config | model | code | unknown
deriving DecidableEq, Repr

def docNames : List Str :=
  ["README".data, "README.md".data, "README.txt".data, "LICENSE".data,
    "LICENSE.txt".data]

def docExts : List Str := [".md".data, ".txt".data]

def configNames : List Str :=
  ["config.json".data, "generation_config.json".data,
    "tokenizer_config.json".data, "special_tokens_map.json".data,
    "tokenizer.json".data, "tokenizer.model".data, "vocab.json".data]

def configExts : List Str := [".json".data, ".yaml".data, ".yml".data]

def modelExts : List Str :=
  [".bin".data, ".safetensors".data, ".pt".data, ".pth".data, ".onnx".data,
    ".gguf".data, ".ggml".data, ".h5".data, ".msgpack".data]

def codeExts : List Str := [".py".data, ".ipynb".data, ".sh".data]

/-- The ordered basename classification of §4.B. -/
def classify (base : Str) : FileCat :=
  if base ∈ docNames ∨ extOf base ∈ docExts then .doc
  else if base ∈ configNames ∨ extOf base ∈ configExts then .config
  else if extOf base ∈ modelExts then .model
  else if extOf base ∈ codeExts then .code
  else .unknown

/-- The four path sets the scanner accumulates (component paths). -/
structure ScanSets where
  configs : List (List Str)
  models : List (List Str)
  codes : List (List Str)
  docs : List (List Str)
deriving DecidableEq, Repr

/-- Record one classified path, or fail on an unrecognised file unless
those are ignored. -/
def addPath (s : ScanSets) (ignore : Bool) (p : List Str) : Except Str ScanSets :=
  match classify (p.getLast?.getD []) with
  | .doc => .ok { s with docs := p :: s.docs }
  | .config => .ok { s with configs := p :: s.configs }
  | .model => .ok { s with models := p :: s.models }
  | .code => .ok { s with codes := p :: s.codes }
  | .unknown =>
    if ignore then .ok s
    else .error ("unrecognized file type: ".data ++ joinPath p)

/-- Classify each surviving path. -/
def classifyPaths (ignore : Bool) : List (List Str) → Except Str ScanSets
  | [] => .ok ⟨[], [], [], []⟩
  | p :: rest =>
    match classifyPaths ignore rest with
    | .error e => .error e
    | .ok s => addPath s ignore p

/-- The caller-supplied generate configuration: non-empty values override
anything inferred from the workspace. -/
structure GenCfg where
  name : Str
  arch : Str
  family : Str
  format : Str
  paramSize : Str
  precision : Str
  quantization : Str
  ignoreUnrecognized : Bool
deriving DecidableEq, Repr

/-- Look up the parsed content of a root file by name. -/
def rootCfg (es : List Entry) (fname : Str) : Option CfgJson :=
  match es with
  | [] => none
  | .file n c :: rest => if n = fname then c else rootCfg rest fname
  | .dir _ _ :: rest => rootCfg rest fname

/-- Metadata inferred from root config files. -/
structure EnrichMeta where
  family : Str
  precision : Str
  arch : Str
deriving DecidableEq, Repr

/-- Apply one parsed config file: `model_type` sets the family,
`torch_dtype` the precision, and a `transformers_version` key marks the
architecture as `transformer` (pinned by the repository's
config-file-conflicts test, where `model_type` alone leaves the
architecture empty). -/
def applyCfg (m : EnrichMeta) (c : CfgJson) : EnrichMeta :=
  let fam := match c.model_type with
    | some v => if v = [] then m.family else v
    | none => m.family
  let prec := match c.torch_dtype with
    | some v => if v = [] then m.precision else v
    | none => m.precision
  let ar := match c.transformers_version with
    | some v => if v = [] then m.arch else "transformer".data
    | none => m.arch
  ⟨fam, prec, ar⟩

def applyOpt (m : EnrichMeta) : Option CfgJson → EnrichMeta
  | none => m
  | some c => applyCfg m c

/-- Enrich from the root `config.json` then `generation_config.json`, so
the later-alphabetised file wins. -/
def enrich (es : List Entry) : EnrichMeta :=
  applyOpt (applyOpt ⟨[], [], []⟩ (rootCfg es "config.json".data))
    (rootCfg es "generation_config.json".data)

/-- A non-empty caller value takes precedence over the inferred one. -/
def overlay (caller inferred : Str) : Str :=
  if caller = [] then inferred else caller

/-- Assemble the synthesized Modelfile from the classified sets, failing
on an empty workspace. -/
def assembleMF (es : List Entry) (cfg : GenCfg) (s : ScanSets) :
    Except Str Modelfile :=
  if s.configs.isEmpty && s.models.isEmpty && s.codes.isEmpty &&
      s.docs.isEmpty then
    .error "empty workspace".data
  else
    let m := enrich es
    .ok ⟨overlay cfg.name [], overlay cfg.arch m.arch,
      overlay cfg.family m.family, overlay cfg.format [],
      overlay cfg.paramSize [], overlay cfg.precision m.precision,
      overlay cfg.quantization [],
      s.configs.map joinPath, s.models.map joinPath, s.codes.map joinPath,
      [], s.docs.map joinPath⟩

/-- Modelled from the spec: `NewModelfileByWorkspace` — walk the tree with
pruning, classify survivors, fail on an unrecognised file (unless ignored)
or an empty workspace, enrich metadata from root config files, and let
caller-supplied values win. -/
def scanWorkspace (es : List Entry) (cfg : GenCfg) : Except Str Modelfile :=
  match classifyPaths cfg.ignoreUnrecognized (walkEntries [] es) with
  | .error e => .error e
  | .ok s => assembleMF es cfg s

mutual

/-- Every path the walk emits under a clean prefix has only clean
components: a skipped name prunes its whole subtree. -/
theorem walkEntry_clean (pre : List Str) (e : Entry)
    (hpre : ∀ c ∈ pre, skipName c = false) :
    ∀ p ∈ walkEntry pre e, ∀ comp ∈ p, skipName comp = false := by
  cases e with
  | file n cfg =>
    intro p hp comp hc
    unfold walkEntry at hp
    by_cases hn : skipName n = true
    · rw [if_pos hn] at hp
      cases hp
    · rw [if_neg hn] at hp
      have hn2 : skipName n = false := by simpa using hn
      rcases List.mem_singleton.mp hp with rfl
      rcases List.mem_append.mp hc with h | h
      · exact hpre _ h
      · rw [List.mem_singleton.mp h]
        exact hn2
  | dir n cs =>
    intro p hp
    unfold walkEntry at hp
    by_cases hn : skipName n = true
    · rw [if_pos hn] at hp
      cases hp
    · rw [if_neg hn] at hp
      have hn2 : skipName n = false := by simpa using hn
      exact walkEntries_clean (pre ++ [n]) cs
        (by
          intro c hc
          rcases List.mem_append.mp hc with h | h
          · exact hpre _ h
          · rw [List.mem_singleton.mp h]
            exact hn2) p hp

theorem walkEntries_clean (pre : List Str) (es : List Entry)
    (hpre : ∀ c ∈ pre, skipName c = false) :
    ∀ p ∈ walkEntries pre es, ∀ comp ∈ p, skipName comp = false := by
  cases es with
  | nil =>
    intro p hp
    cases hp
  | cons e es2 =>
    intro p hp
    rw [walkEntries] at hp
    rcases List.mem_append.mp hp with h | h
    · exact walkEntry_clean pre e hpre p h
    · exact walkEntries_clean pre es2 hpre p h

end

/-- A path recorded by `addPath` is the new one or was already present. -/
theorem addPath_sub {s0 s : ScanSets} {ig : Bool} {q : List Str}
    (h : addPath s0 ig q = .ok s) :
    ∀ p, p ∈ s.configs ∨ p ∈ s.models ∨ p ∈ s.codes ∨ p ∈ s.docs →
      p = q ∨ (p ∈ s0.configs ∨ p ∈ s0.models ∨ p ∈ s0.codes ∨ p ∈ s0.docs) := by
  intro p hp
  unfold addPath at h
  cases hcat : classify (q.getLast?.getD []) with
  | doc =>
    rw [hcat] at h
    cases (Except.ok.inj h)
    rcases hp with hp | hp | hp | hp
    · exact Or.inr (Or.inl hp)
    · exact Or.inr (Or.inr (Or.inl hp))
    · exact Or.inr (Or.inr (Or.inr (Or.inl hp)))
    · rcases List.mem_cons.mp hp with rfl | hp
      · exact Or.inl rfl
      · exact Or.inr (Or.inr (Or.inr (Or.inr hp)))
  | config =>
    rw [hcat] at h
    cases (Except.ok.inj h)
    rcases hp with hp | hp | hp | hp
    · rcases List.mem_cons.mp hp with rfl | hp
      · exact Or.inl rfl
      · exact Or.inr (Or.inl hp)
    · exact Or.inr (Or.inr (Or.inl hp))
    · exact Or.inr (Or.inr (Or.inr (Or.inl hp)))
    · exact Or.inr (Or.inr (Or.inr (Or.inr hp)))
  | model =>
    rw [hcat] at h
    cases (Except.ok.inj h)
    rcases hp with hp | hp | hp | hp
    · exact Or.inr (Or.inl hp)
    · rcases List.mem_cons.mp hp with rfl | hp
      · exact Or.inl rfl
      · exact Or.inr (Or.inr (Or.inl hp))
    · exact Or.inr (Or.inr (Or.inr (Or.inl hp)))
    · exact Or.inr (Or.inr (Or.inr (Or.inr hp)))
  | code =>
    rw [hcat] at h
    cases (Except.ok.inj h)
    rcases hp with hp | hp | hp | hp
    · exact Or.inr (Or.inl hp)
    · exact Or.inr (Or.inr (Or.inl hp))
    · rcases List.mem_cons.mp hp with rfl | hp
      · exact Or.inl rfl
      · exact Or.inr (Or.inr (Or.inr (Or.inl hp)))
    · exact Or.inr (Or.inr (Or.inr (Or.inr hp)))
  | unknown =>
    rw [hcat] at h
    by_cases hig : ig = true
    · rw [if_pos hig] at h
      cases (Except.ok.inj h)
      exact Or.inr hp
    · rw [if_neg hig] at h
      cases h

/-- Every classified path came from the walked path list. -/
theorem classifyPaths_sub {ig : Bool} :
    ∀ {paths : List (List Str)} {s : ScanSets},
      classifyPaths ig paths = .ok s →
      ∀ p, p ∈ s.configs ∨ p ∈ s.models ∨ p ∈ s.codes ∨ p ∈ s.docs →
        p ∈ paths := by
  intro paths
  induction paths with
  | nil =>
    intro s h p hp
    cases (Except.ok.inj h)
    rcases hp with hp | hp | hp | hp <;> cases hp
  | cons q rest ih =>
    intro s h p hp
    unfold classifyPaths at h
    cases hr : classifyPaths ig rest with
    | error e =>
      rw [hr] at h
      cases h
    | ok s0 =>
      rw [hr] at h
      have h2 : addPath s0 ig q = .ok s := h
      rcases addPath_sub h2 p hp with rfl | hp2
      · exact List.mem_cons_self _ _
      · exact List.mem_cons_of_mem _ (ih hr p hp2)

/-- A successful scan is exactly: classification succeeded, the workspace
was nonempty, and the Modelfile is assembled from the classified sets and
the (overlaid) enrichment metadata. -/
theorem scanWorkspace_ok_inv {es : List Entry} {cfg : GenCfg} {mf : Modelfile}
    (h : scanWorkspace es cfg = .ok mf) :
    ∃ s, classifyPaths cfg.ignoreUnrecognized (walkEntries [] es) = .ok s ∧
      mf = ⟨overlay cfg.name [], overlay cfg.arch (enrich es).arch,
        overlay cfg.family (enrich es).family, overlay cfg.format [],
        overlay cfg.paramSize [], overlay cfg.precision (enrich es).precision,
        overlay cfg.quantization [],
        s.configs.map joinPath, s.models.map joinPath, s.codes.map joinPath,
        [], s.docs.map joinPath⟩ := by
  unfold scanWorkspace at h
  cases hs : classifyPaths cfg.ignoreUnrecognized (walkEntries [] es) with
  | error e =>
    rw [hs] at h
    cases h
  | ok s =>
    rw [hs] at h
    have h2 : assembleMF es cfg s = .ok mf := h
    unfold assembleMF at h2
    by_cases hempty : (s.configs.isEmpty && s.models.isEmpty &&
        s.codes.isEmpty && s.docs.isEmpty) = true
    · rw [if_pos hempty] at h2
      cases h2
    · rw [if_neg hempty] at h2
      exact ⟨s, rfl, (Except.ok.inj h2).symm⟩

/-- C8: whenever the workspace scan succeeds, every value stored in any
of the synthesized Modelfile's file sets is the forward-slash join of a
component path in which no component begins with `.` and none equals
`__pycache__` — the walk prunes the whole subtree below such a component,
so no file under it is ever classified. -/
theorem c8_hidden_pruned (es : List Entry) (cfg : GenCfg) (mf : Modelfile)
    (hscan : scanWorkspace es cfg = .ok mf) :
    ∀ f : MField, ∀ v ∈ getM mf f,
      ∃ p, v = joinPath p ∧ ∀ comp ∈ p, skipName comp = false := by
  obtain ⟨s, hs, rfl⟩ := scanWorkspace_ok_inv hscan
  have hclean : ∀ p ∈ walkEntries [] es, ∀ comp ∈ p, skipName comp = false :=
    walkEntries_clean [] es (by intro c hc; cases hc)
  intro f v hv
  cases f with
  | config =>
    obtain ⟨p, hp, rfl⟩ := List.mem_map.mp hv
    exact ⟨p, rfl, hclean p (classifyPaths_sub hs p (Or.inl hp))⟩
  | model =>
    obtain ⟨p, hp, rfl⟩ := List.mem_map.mp hv
    exact ⟨p, rfl, hclean p (classifyPaths_sub hs p (Or.inr (Or.inl hp)))⟩
  | code =>
    obtain ⟨p, hp, rfl⟩ := List.mem_map.mp hv
    exact ⟨p, rfl, hclean p (classifyPaths_sub hs p (Or.inr (Or.inr (Or.inl hp))))⟩
  | dataset => cases hv
  | doc =>
    obtain ⟨p, hp, rfl⟩ := List.mem_map.mp hv
    exact ⟨p, rfl,
      hclean p (classifyPaths_sub hs p (Or.inr (Or.inr (Or.inr hp))))⟩

/-- The hidden-directories workspace of the repository's
`skipping internal directories` test. -/
def c8ws : List Entry :=
  [.file "config.json".data none,
    .dir ".git".data [.file "config".data none],
    .dir "__pycache__".data [.file "cache.pyc".data none],
    .dir ".hidden".data [.file "model.bin".data none],
    .dir "normal".data [.file "model.bin".data none],
    .dir "valid_dir".data [.file "model.py".data none]]

def c8cfg : GenCfg := ⟨"skip-test".data, [], [], [], [], [], [], false⟩

/-- The scan result on `c8ws`: only the clean paths survive. -/
def c8mf : Modelfile :=
  ⟨"skip-test".data, [], [], [], [], [], [],
    ["config.json".data], ["normal/model.bin".data],
    ["valid_dir/model.py".data], [], []⟩

/-- Witness for C8: the pruning theorem applied to the test workspace
containing `.git/`, `__pycache__/` and `.hidden/` subtrees, at the model
entry `normal/model.bin` that survives the pruning. -/
theorem c8_hidden_pruned_witness :
    ∃ p, "normal/model.bin".data = joinPath p ∧
      ∀ comp ∈ p, skipName comp = false :=
  c8_hidden_pruned c8ws c8cfg c8mf (by decide) .model
    "normal/model.bin".data (by decide)

/-- The repository's `config file conflicts` test workspace: a root
`config.json` with `model_type gpt2` / `torch_dtype float16` and a root
`generation_config.json` with `model_type llama` / `torch_dtype float32`,
neither carrying a `transformers_version`. -/
def c9ws : List Entry :=
  [.file "model.bin".data none,
    .file "config.json".data
      (some ⟨some "gpt2".data, some "float16".data, none⟩),
    .file "generation_config.json".data
      (some ⟨some "llama".data, some "float32".data, none⟩)]

def c9cfg : GenCfg := ⟨"conflict-test".data, [], [], [], [], [], [], false⟩

/-- C9 counterexample: on the conflicts workspace the root `config.json`
has a `model_type` and the caller supplies no overrides, so the claim
demands `ARCH transformer`; the scan (pinned by the repository's test,
which expects an empty architecture there) yields `family = llama`,
`precision = float32` and an empty `arch` — `model_type` presence alone
does not set the architecture. -/
theorem c9_counterexample :
    (scanWorkspace c9ws c9cfg).toOption.map
        (fun mf => (mf.family, mf.precision, mf.arch)) =
      some ("llama".data, "float32".data, []) := by decide

/-- C9 amended: with no caller overrides, a root `config.json` with
`model_type M` and `torch_dtype D` yields `FAMILY M` and `PRECISION D`;
`ARCH` becomes `transformer` only when the root config also carries a
`transformers_version` key, and stays empty otherwise; when a root
`generation_config.json` also exists, its `model_type` and `torch_dtype`
win over `config.json`'s. -/
theorem c9_config_enrichment :
    (∀ (es : List Entry) (cfg : GenCfg) (mf : Modelfile) (M D : Str),
      scanWorkspace es cfg = .ok mf →
      cfg.family = [] → cfg.precision = [] → cfg.arch = [] →
      rootCfg es "config.json".data = some ⟨some M, some D, none⟩ →
      rootCfg es "generation_config.json".data = none →
      M ≠ [] → D ≠ [] →
      mf.family = M ∧ mf.precision = D ∧ mf.arch = []) ∧
    (∀ (es : List Entry) (cfg : GenCfg) (mf : Modelfile) (M D T : Str),
      scanWorkspace es cfg = .ok mf →
      cfg.family = [] → cfg.precision = [] → cfg.arch = [] →
      rootCfg es "config.json".data = some ⟨some M, some D, some T⟩ →
      rootCfg es "generation_config.json".data = none →
      M ≠ [] → D ≠ [] → T ≠ [] →
      mf.family = M ∧ mf.precision = D ∧
        mf.arch = "transformer".data) ∧
    (∀ (es : List Entry) (cfg : GenCfg) (mf : Modelfile) (c : CfgJson)
        (M2 D2 : Str),
      scanWorkspace es cfg = .ok mf →
      cfg.family = [] → cfg.precision = [] →
      rootCfg es "config.json".data = some c →
      rootCfg es "generation_config.json".data =
        some ⟨some M2, some D2, none⟩ →
      M2 ≠ [] → D2 ≠ [] →
      mf.family = M2 ∧ mf.precision = D2) := by
  refine ⟨?_, ?_, ?_⟩
  · intro es cfg mf M D hscan hcf hcp hca hc hg hM hD
    obtain ⟨s, _, rfl⟩ := scanWorkspace_ok_inv hscan
    unfold enrich
    rw [hc, hg]
    simp [applyOpt, applyCfg, overlay, hcf, hcp, hca, hM, hD]
  · intro es cfg mf M D T hscan hcf hcp hca hc hg hM hD hT
    obtain ⟨s, _, rfl⟩ := scanWorkspace_ok_inv hscan
    unfold enrich
    rw [hc, hg]
    simp [applyOpt, applyCfg, overlay, hcf, hcp, hca, hM, hD, hT]
  · intro es cfg mf c M2 D2 hscan hcf hcp hc hg hM2 hD2
    obtain ⟨s, _, rfl⟩ := scanWorkspace_ok_inv hscan
    unfold enrich
    rw [hc, hg]
    simp [applyOpt, applyCfg, overlay, hcf, hcp, hM2, hD2]

/-- A single-root-config workspace with a `transformers_version`. -/
def c9ws2 : List Entry :=
  [.file "model.bin".data none,
    .file "config.json".data
      (some ⟨some "llama".data, some "float16".data, some "4.28.0".data⟩)]

/-- The scan results of the three C9 witness workspaces. -/
def c9mf1 : Modelfile :=
  ⟨"m".data, [], "gpt2".data, [], [], "float32".data, [],
    ["config.json".data], ["model.bin".data], [], [], []⟩

def c9mf2 : Modelfile :=
  ⟨"config-model".data, "transformer".data, "llama".data, [], [],
    "float16".data, [], ["config.json".data], ["model.bin".data], [], [],
    []⟩

def c9mf3 : Modelfile :=
  ⟨"conflict-test".data, [], "llama".data, [], [], "float32".data, [],
    ["config.json".data, "generation_config.json".data],
    ["model.bin".data], [], [], []⟩

/-- Witness for the amended C9: all three parts applied to concrete
workspaces (`config.json` without and with `transformers_version`, and
the conflicts workspace where `generation_config.json` wins). -/
theorem c9_config_enrichment_witness :
    (c9mf1.family = "gpt2".data ∧ c9mf1.precision = "float32".data ∧
      c9mf1.arch = []) ∧
    (c9mf2.family = "llama".data ∧ c9mf2.precision = "float16".data ∧
      c9mf2.arch = "transformer".data) ∧
    (c9mf3.family = "llama".data ∧ c9mf3.precision = "float32".data) :=
  ⟨c9_config_enrichment.1
      [.file "model.bin".data none,
        .file "config.json".data
          (some ⟨some "gpt2".data, some "float32".data, none⟩)]
      ⟨"m".data, [], [], [], [], [], [], false⟩ c9mf1
      "gpt2".data "float32".data (by decide) rfl rfl rfl (by decide)
      (by decide) (by decide) (by decide),
    c9_config_enrichment.2.1 c9ws2
      ⟨"config-model".data, [], [], [], [], [], [], false⟩ c9mf2
      "llama".data "float16".data "4.28.0".data (by decide) rfl rfl rfl
      (by decide) (by decide) (by decide) (by decide) (by decide),
    c9_config_enrichment.2.2 c9ws c9cfg c9mf3
      ⟨some "gpt2".data, some "float16".data, none⟩
      "llama".data "float32".data (by decide) rfl rfl (by decide)
      (by decide) (by decide) (by decide)⟩

/-! ### Processor file identification (`modelProcessor.Identify`,
`modelConfigProcessor.Identify`)

The processors match each configured pattern as an (unanchored) regular
expression against `info.Name()` — the basename — via
`regexp.MatchString(pattern, info.Name())`, discarding the error return.
Go's regexp engine is embedded for the fragment the recipe patterns use:
literals, `\`-escapes, `.`, postfix `*`, grouping and alternation, with
Brzozowski-derivative matching and substring (unanchored) search.
Compilation returns `none` on a malformed pattern, mirroring
`regexp.MatchString`'s error result. -/

/-- Regular expressions (the `nul` constructor matches nothing; it arises
from derivatives). -/
inductive RE where
  | nul
  | eps
  | anyc
  | lit (c : Char)
  | cat (a b : RE)
  | alt (a b : RE)
  | star (a : RE)
deriving DecidableEq, Repr

/-- Does the expression accept the empty string? -/
def nullable : RE → Bool
  | .nul => false
  | .eps => true
  | .anyc => false
  | .lit _ => false
  | .cat a b => nullable a && nullable b
  | .alt a b => nullable a || nullable b
  | .star _ => true

/-- Brzozowski derivative with respect to one character. -/
def deriv (r : RE) (c : Char) : RE :=
  match r with
  | .nul => .nul
  | .eps => .nul
  | .anyc => .eps
  | .lit d => if c = d then .eps else .nul
  | .cat a b =>
    if nullable a then .alt (.cat (deriv a c) b) (deriv b c)
    else .cat (deriv a c) b
  | .alt a b => .alt (deriv a c) (deriv b c)
  | .star a => .cat (deriv a c) (.star a)

/-- Full (anchored) match by iterated derivatives. -/
def rmatch (r : RE) : Str → Bool
  | [] => nullable r
  | c :: cs => rmatch (deriv r c) cs

/-- Unanchored search: some substring matches. -/
def searchRE (r : RE) (s : Str) : Bool :=
  s.tails.any (fun t => t.inits.any (fun p => rmatch r p))

mutual

/-- Parse one atom: a group, `.`, an escape, or a literal. -/
def pAtom : Nat → Str → Option (RE × Str)
  | 0, _ => none
  | _ + 1, [] => none
  | f + 1, c :: cs =>
    if c = '(' then
      match pAlt f cs with
      | some (r, ')' :: rest2) => some (r, rest2)
      | _ => none
    else if c = ')' ∨ c = '|' ∨ c = '*' then none
    else if c = '.' then some (.anyc, cs)
    else if c = '\\' then
      match cs with
      | [] => none
      | d :: ds => some (.lit d, ds)
    else some (.lit c, cs)

/-- Parse a sequence of starred atoms. -/
def pSeq : Nat → Str → Option (RE × Str)
  | 0, _ => none
  | _ + 1, [] => some (.eps, [])
  | f + 1, c :: cs =>
    if c = ')' ∨ c = '|' then some (.eps, c :: cs)
    else
      match pAtom f (c :: cs) with
      | none => none
      | some (r, rest) =>
        let pr : RE × Str :=
          match rest with
          | '*' :: rest2 => (.star r, rest2)
          | _ => (r, rest)
        match pSeq f pr.2 with
        | none => none
        | some (r2, rest3) => some (.cat pr.1 r2, rest3)

/-- Parse an alternation of sequences. -/
def pAlt : Nat → Str → Option (RE × Str)
  | 0, _ => none
  | f + 1, s =>
    match pSeq f s with
    | none => none
    | some (r, '|' :: rest2) =>
      match pAlt f rest2 with
      | none => none
      | some (r2, rest3) => some (.alt r r2, rest3)
    | some (r, rest) => some (r, rest)

end

/-- Compile a pattern; `none` mirrors a `regexp.Compile` error. -/
def compile (pat : Str) : Option RE :=
  match pAlt (3 * pat.length + 3) pat with
  | some (r, []) => some r
  | _ => none

/-- The call `regexp.MatchString(pat, s)` with the error discarded: a pattern that
fails to compile simply reports no match. -/
def matchString (pat s : Str) : Bool :=
  match compile pat with
  | none => false
  | some r => searchRE r s

/-- The processors' `Identify` (`modelProcessor` and `modelConfigProcessor`): try every
configured pattern against `info.Name()` (the basename); the full path
argument is never consulted. -/
def identify (patterns : List Str) (path : String) (name : Str) : Bool :=
  patterns.any (fun p => matchString p name)

/-- C10: an invalid pattern never matches — the regexp error is discarded
and `Identify` just reports `false`, with no error surfaced to the build
(`Identify` has no error channel at all); `Identify` depends only on the
file's basename, never on its path; and a valid pattern matches
unanchored: any matching substring of the basename suffices. -/
theorem c10_identify_regex :
    (∀ (ps : List Str) (path : String) (name : Str),
      (∀ p ∈ ps, compile p = none) → identify ps path name = false) ∧
    (∀ (ps : List Str) (path1 path2 : String) (name : Str),
      identify ps path1 name = identify ps path2 name) ∧
    (∀ (p : Str) (r : RE) (name sub : Str),
      compile p = some r → rmatch r sub = true → sub.IsInfix name →
      matchString p name = true) := by
  refine ⟨?_, ?_, ?_⟩
  · intro ps path name h
    unfold identify
    rw [List.any_eq_false]
    intro p hp
    unfold matchString
    rw [h p hp]
    simp
  · intro ps p1 p2 name
    rfl
  · intro p r name sub hc hm hinf
    unfold matchString
    rw [hc]
    unfold searchRE
    rw [List.any_eq_true]
    obtain ⟨pre, post, hps⟩ := hinf
    refine ⟨sub ++ post, ?_, ?_⟩
    · rw [List.mem_tails]
      exact ⟨pre, by rw [← hps]; simp [List.append_assoc]⟩
    · rw [List.any_eq_true]
      refine ⟨sub, ?_, hm⟩
      rw [List.mem_inits]
      exact ⟨post, rfl⟩

/-- Witness for C10: the invalid pattern `(` claims no file; the path
argument is immaterial; and the pattern `model` matches the basename
`my_model.bin` unanchored (via the substring `model`). -/
theorem c10_identify_regex_witness :
    identify ["(".data] "weights/model.bin" "model.bin".data = false ∧
    identify ["model".data] "a/b" "my_model.bin".data =
      identify ["model".data] "c/d" "my_model.bin".data ∧
    matchString "model".data "my_model.bin".data = true :=
  ⟨c10_identify_regex.1 ["(".data] "weights/model.bin" "model.bin".data
      (by decide),
    c10_identify_regex.2.1 ["model".data] "a/b" "c/d" "my_model.bin".data,
    c10_identify_regex.2.2 "model".data
      (RE.cat (.lit 'm') (.cat (.lit 'o') (.cat (.lit 'd')
        (.cat (.lit 'e') (.cat (.lit 'l') .eps)))))
      "my_model.bin".data "model".data (by decide) (by decide)
      ⟨"my_".data, ".bin".data, by decide⟩⟩

/-! ### Remote output strategy (`remoteOutput`)

Translated from `remoteOutput.OutputLayer` / `OutputConfig` /
`OutputManifest`.  The registry is the visible remote state: the blob
digests present, the manifest digests present, and the tag table.  The
SHA-256 hex function and the tar archiver are external collaborators and
enter as parameters (`h`, `tarFn`); every theorem holds for arbitrary
instantiations of them.  `pushed` records the exact byte sequence written
to the destination by one call (empty when the existence check short-cuts
the upload), and `hashed` the byte sequence consumed by the hasher. -/

/-- An OCI descriptor as the output strategy constructs it. -/
structure Desc where
  mediaType : String
  digest : String
  size : Nat
  annotations : List (String × String)
deriving DecidableEq, Repr

/-- The `modelspec.AnnotationFilepath` key. -/
def annotationFilepath : String := "org.cnai.model.filepath"

/-- The remote registry state visible to the output strategy. -/
structure Registry where
  blobs : List String
  manifests : List String
  tags : List (String × String)
deriving DecidableEq, Repr

/-- The outcome of one output call. -/
structure PushResult where
  desc : Desc
  reg : Registry
  pushed : Bytes
  hashed : Bytes
deriving DecidableEq, Repr

/-- The `sha256:<hex>` digest of a byte stream, for an arbitrary hex
function `h`. -/
def digestOf (h : Bytes → String) (bs : Bytes) : String := "sha256:" ++ h bs

/-- Translation of `remoteOutput.OutputLayer`: hash the incoming reader, build the
descriptor with the filepath annotation, re-tar the file for upload, and
skip the push when the blob already exists. -/
def remoteOutputLayer (h : Bytes → String) (tarFn : String → String → Bytes)
    (reg : Registry) (mediaType workDir relPath : String) (reader : Bytes) :
    PushResult :=
  let desc : Desc := ⟨mediaType, digestOf h reader, reader.length,
    [(annotationFilepath, relPath)]⟩
  let tarReader := tarFn workDir relPath
  if desc.digest ∈ reg.blobs then ⟨desc, reg, [], reader⟩
  else ⟨desc, { reg with blobs := desc.digest :: reg.blobs }, tarReader,
    reader⟩

/-- Translation of `remoteOutput.OutputConfig`: digest the config JSON and push it unless
it already exists. -/
def remoteOutputConfig (h : Bytes → String) (reg : Registry)
    (mediaType : String) (configJSON : Bytes) : PushResult :=
  let desc : Desc := ⟨mediaType, digestOf h configJSON, configJSON.length, []⟩
  if desc.digest ∈ reg.blobs then ⟨desc, reg, [], configJSON⟩
  else ⟨desc, { reg with blobs := desc.digest :: reg.blobs }, configJSON,
    configJSON⟩

/-- Translation of `remoteOutput.OutputManifest`: digest the manifest JSON; when it does
not exist yet, push it and tag it; when it already exists, return the
descriptor immediately — without tagging. -/
def remoteOutputManifest (h : Bytes → String) (reg : Registry)
    (mediaType tag : String) (manifestJSON : Bytes) : PushResult :=
  let desc : Desc :=
    ⟨mediaType, digestOf h manifestJSON, manifestJSON.length, []⟩
  if desc.digest ∈ reg.manifests then ⟨desc, reg, [], manifestJSON⟩
  else ⟨desc,
    ⟨reg.blobs, desc.digest :: reg.manifests, (tag, desc.digest) :: reg.tags⟩,
    manifestJSON, manifestJSON⟩

/-- C2: for every blob output — layer, config or manifest — the returned
descriptor is the same whether or not the blob already existed; when a
blob with the computed digest already exists at the destination the call
pushes zero bytes and leaves the registry unchanged, and when it does not
exist the blob's bytes are pushed and its digest becomes present. -/
theorem c2_existence_skip (h : Bytes → String)
    (tarFn : String → String → Bytes) (reg : Registry)
    (mt wd rp tag : String) (reader json mjson : Bytes) :
    ((remoteOutputLayer h tarFn reg mt wd rp reader).desc =
        ⟨mt, digestOf h reader, reader.length, [(annotationFilepath, rp)]⟩ ∧
      (if digestOf h reader ∈ reg.blobs then
        (remoteOutputLayer h tarFn reg mt wd rp reader).pushed = [] ∧
          (remoteOutputLayer h tarFn reg mt wd rp reader).reg = reg
      else
        (remoteOutputLayer h tarFn reg mt wd rp reader).pushed =
            tarFn wd rp ∧
          digestOf h reader ∈
            (remoteOutputLayer h tarFn reg mt wd rp reader).reg.blobs)) ∧
    ((remoteOutputConfig h reg mt json).desc =
        ⟨mt, digestOf h json, json.length, []⟩ ∧
      (if digestOf h json ∈ reg.blobs then
        (remoteOutputConfig h reg mt json).pushed = [] ∧
          (remoteOutputConfig h reg mt json).reg = reg
      else
        (remoteOutputConfig h reg mt json).pushed = json ∧
          digestOf h json ∈ (remoteOutputConfig h reg mt json).reg.blobs)) ∧
    ((remoteOutputManifest h reg mt tag mjson).desc =
        ⟨mt, digestOf h mjson, mjson.length, []⟩ ∧
      (if digestOf h mjson ∈ reg.manifests then
        (remoteOutputManifest h reg mt tag mjson).pushed = [] ∧
          (remoteOutputManifest h reg mt tag mjson).reg = reg
      else
        (remoteOutputManifest h reg mt tag mjson).pushed = mjson ∧
          digestOf h mjson ∈
            (remoteOutputManifest h reg mt tag mjson).reg.manifests)) := by
  refine ⟨⟨?_, ?_⟩, ⟨?_, ?_⟩, ⟨?_, ?_⟩⟩
  · unfold remoteOutputLayer
    by_cases hm : digestOf h reader ∈ reg.blobs <;> simp [hm]
  · unfold remoteOutputLayer
    by_cases hm : digestOf h reader ∈ reg.blobs <;> simp [hm]
  · unfold remoteOutputConfig
    by_cases hm : digestOf h json ∈ reg.blobs <;> simp [hm]
  · unfold remoteOutputConfig
    by_cases hm : digestOf h json ∈ reg.blobs <;> simp [hm]
  · unfold remoteOutputManifest
    by_cases hm : digestOf h mjson ∈ reg.manifests <;> simp [hm]
  · unfold remoteOutputManifest
    by_cases hm : digestOf h mjson ∈ reg.manifests <;> simp [hm]

/-- C3: when the caller's reader carries the tar stream of the same file
that `OutputLayer` re-tars for upload, the byte sequence consumed by the
hasher equals the byte sequence delivered to the uploader, so the
returned descriptor's digest and size describe exactly the bytes stored
at the destination. -/
theorem c3_hash_equals_upload (h : Bytes → String)
    (tarFn : String → String → Bytes) (reg : Registry)
    (mt wd rp : String) (reader : Bytes)
    (hread : reader = tarFn wd rp)
    (hnew : digestOf h reader ∉ reg.blobs) :
    (remoteOutputLayer h tarFn reg mt wd rp reader).pushed =
        (remoteOutputLayer h tarFn reg mt wd rp reader).hashed ∧
      (remoteOutputLayer h tarFn reg mt wd rp reader).desc.size =
        (remoteOutputLayer h tarFn reg mt wd rp reader).pushed.length ∧
      (remoteOutputLayer h tarFn reg mt wd rp reader).desc.digest =
        digestOf h (remoteOutputLayer h tarFn reg mt wd rp reader).pushed := by
  unfold remoteOutputLayer
  simp [hnew, ← hread]

/-- Witness for C3: a concrete digest function, tar function, file and
empty registry. -/
theorem c3_hash_equals_upload_witness :
    (remoteOutputLayer (fun bs => toString bs.length)
        (fun _ _ => [1, 2, 3]) ⟨[], [], []⟩ "mt" "wd" "a.bin"
        [1, 2, 3]).pushed =
      (remoteOutputLayer (fun bs => toString bs.length)
        (fun _ _ => [1, 2, 3]) ⟨[], [], []⟩ "mt" "wd" "a.bin"
        [1, 2, 3]).hashed ∧
    (remoteOutputLayer (fun bs => toString bs.length)
        (fun _ _ => [1, 2, 3]) ⟨[], [], []⟩ "mt" "wd" "a.bin"
        [1, 2, 3]).desc.size =
      (remoteOutputLayer (fun bs => toString bs.length)
        (fun _ _ => [1, 2, 3]) ⟨[], [], []⟩ "mt" "wd" "a.bin"
        [1, 2, 3]).pushed.length ∧
    (remoteOutputLayer (fun bs => toString bs.length)
        (fun _ _ => [1, 2, 3]) ⟨[], [], []⟩ "mt" "wd" "a.bin"
        [1, 2, 3]).desc.digest =
      digestOf (fun bs => toString bs.length)
        ((remoteOutputLayer (fun bs => toString bs.length)
          (fun _ _ => [1, 2, 3]) ⟨[], [], []⟩ "mt" "wd" "a.bin"
          [1, 2, 3]).pushed) :=
  c3_hash_equals_upload (fun bs => toString bs.length)
    (fun _ _ => [1, 2, 3]) ⟨[], [], []⟩ "mt" "wd" "a.bin" [1, 2, 3] rfl
    (by decide)

/-- A stand-in digest function for the concrete C4 registry. -/
def c4h : Bytes → String := fun bs => toString bs.length

/-- A registry that already holds the manifest about to be output, with an
empty tag table. -/
def c4reg : Registry := ⟨[], [digestOf c4h [7, 7]], []⟩

/-- C4 counterexample: the manifest blob `[7, 7]` already exists at the
destination, so `OutputManifest` returns its descriptor without pushing —
and without tagging: the registry's tag table stays empty, so the build's
name tag does not resolve to the just-built manifest digest, contradicting
the claim that every successful `OutputManifest` call ends by tagging. -/
theorem c4_counterexample :
    (remoteOutputManifest c4h c4reg "application/vnd.oci.image.manifest.v1+json"
        "v1" [7, 7]).reg.tags = [] ∧
    (remoteOutputManifest c4h c4reg "application/vnd.oci.image.manifest.v1+json"
        "v1" [7, 7]).desc.digest = digestOf c4h [7, 7] := by
  refine ⟨by decide, by decide⟩

/-- C4 amended: `OutputManifest` tags the manifest with the build's tag
only on the push path — when the manifest digest is not yet present, the
call pushes and the tag resolves to the new digest; when the manifest
blob already exists, the call returns the descriptor with the registry
(including its tag table) unchanged. -/
theorem c4_manifest_tagging (h : Bytes → String) (reg : Registry)
    (mt tag : String) (mjson : Bytes) :
    (digestOf h mjson ∉ reg.manifests →
      (tag, digestOf h mjson) ∈
        (remoteOutputManifest h reg mt tag mjson).reg.tags) ∧
    (digestOf h mjson ∈ reg.manifests →
      (remoteOutputManifest h reg mt tag mjson).reg = reg) := by
  constructor
  · intro hnew
    unfold remoteOutputManifest
    simp [hnew]
  · intro hold
    unfold remoteOutputManifest
    simp [hold]

/-- Witness for the amended C4: tagging happens on a fresh registry, and
the pre-existing-manifest registry is left untouched. -/
theorem c4_manifest_tagging_witness :
    ("v1", digestOf c4h [7, 7]) ∈
      (remoteOutputManifest c4h ⟨[], [], []⟩ "mt" "v1" [7, 7]).reg.tags ∧
    (remoteOutputManifest c4h c4reg "mt" "v1" [7, 7]).reg = c4reg :=
  ⟨(c4_manifest_tagging c4h ⟨[], [], []⟩ "mt" "v1" [7, 7]).1 (by decide),
    (c4_manifest_tagging c4h c4reg "mt" "v1" [7, 7]).2 (by decide)⟩

/-! ### Build determinism (orchestrator §4.F / §5)

Modelled from the spec: the worker-pool scheduling of layer tasks is
abstracted as the completion order of the claimed files — an arbitrary
permutation of the claimed list — and the assembler sorts the collected
layer descriptors by their filepath annotation before building the config
(whose `diff_ids` follow the sorted order) and the manifest.  The sort
itself is absent from the source tree (only its caller, `process` in
`pkg/backend/build.go`, survives); it follows §4.F step 7 of the spec. -/

theorem strLe_total (a : Str) : ∀ b, strLe a b = true ∨ strLe b a = true := by
  induction a with
  | nil => intro b; exact Or.inl rfl
  | cons x xs ih =>
    intro b
    cases b with
    | nil => exact Or.inr rfl
    | cons y ys =>
      by_cases hxy : x = y
      · subst hxy
        unfold strLe
        rw [if_pos rfl, if_pos rfl]
        exact ih ys
      · rcases lt_trichotomy x y with h | h | h
        · left
          unfold strLe
          rw [if_neg hxy]
          simpa using h
        · exact absurd h hxy
        · right
          unfold strLe
          rw [if_neg (Ne.symm hxy)]
          simpa using h

theorem strLe_trans : ∀ (a b c : Str), strLe a b = true → strLe b c = true →
    strLe a c = true := by
  intro a
  induction a with
  | nil => intro b c _ _; rfl
  | cons x xs ih =>
    intro b c hab hbc
    cases b with
    | nil => cases hab
    | cons y ys =>
      cases c with
      | nil => cases hbc
      | cons z zs =>
        unfold strLe at hab hbc ⊢
        by_cases hxy : x = y
        · subst hxy
          rw [if_pos rfl] at hab
          by_cases hyz : x = z
          · subst hyz
            rw [if_pos rfl] at hbc ⊢
            exact ih ys zs hab hbc
          · rw [if_neg hyz] at hbc ⊢
            exact hbc
        · rw [if_neg hxy] at hab
          simp only [decide_eq_true_eq] at hab
          by_cases hyz : y = z
          · subst hyz
            rw [if_neg hxy]
            simpa using hab
          · rw [if_neg hyz] at hbc
            simp only [decide_eq_true_eq] at hbc
            have hxz : x < z := lt_trans hab hbc
            rw [if_neg (ne_of_lt hxz)]
            simpa using hxz

theorem strLe_antisymm : ∀ (a b : Str), strLe a b = true → strLe b a = true →
    a = b := by
  intro a
  induction a with
  | nil =>
    intro b h1 h2
    cases b with
    | nil => rfl
    | cons y ys => cases h2
  | cons x xs ih =>
    intro b h1 h2
    cases b with
    | nil => cases h1
    | cons y ys =>
      unfold strLe at h1 h2
      by_cases hxy : x = y
      · subst hxy
        rw [if_pos rfl] at h1 h2
        rw [ih ys h1 h2]
      · rw [if_neg hxy] at h1
        rw [if_neg (Ne.symm hxy)] at h2
        simp only [decide_eq_true_eq] at h1 h2
        exact absurd (lt_trans h1 h2) (lt_irrefl x)

theorem insertLe_pairwise {le : α → α → Bool}
    (htot : ∀ a b, le a b = true ∨ le b a = true)
    (htr : ∀ a b c, le a b = true → le b c = true → le a c = true)
    (a : α) (l : List α) (hl : l.Pairwise (fun x y => le x y = true)) :
    (insertLe le a l).Pairwise (fun x y => le x y = true) := by
  induction l with
  | nil => simp [insertLe]
  | cons b bs ih =>
    unfold insertLe
    obtain ⟨hb, hbs⟩ := List.pairwise_cons.mp hl
    by_cases hab : le a b = true
    · rw [if_pos hab]
      refine List.pairwise_cons.mpr ⟨?_, hl⟩
      intro x hx
      rcases List.mem_cons.mp hx with rfl | hx
      · exact hab
      · exact htr a b x hab (hb x hx)
    · rw [if_neg hab]
      have hba : le b a = true := (htot a b).resolve_left hab
      refine List.pairwise_cons.mpr ⟨?_, ih hbs⟩
      intro x hx
      rcases List.mem_cons.mp ((insertLe_perm le a bs).mem_iff.mp hx) with
        rfl | hx2
      · exact hba
      · exact hb x hx2

theorem sortLe_pairwise {le : α → α → Bool}
    (htot : ∀ a b, le a b = true ∨ le b a = true)
    (htr : ∀ a b c, le a b = true → le b c = true → le a c = true)
    (l : List α) : (sortLe le l).Pairwise (fun x y => le x y = true) := by
  induction l with
  | nil => exact List.Pairwise.nil
  | cons a as ih => exact insertLe_pairwise htot htr a (sortLe le as) ih

/-- Two sorted lists that are permutations of one another and whose
comparator is antisymmetric on their members are equal. -/
theorem sorted_perm_unique {le : α → α → Bool} :
    ∀ (l1 l2 : List α), l1.Perm l2 →
      l1.Pairwise (fun x y => le x y = true) →
      l2.Pairwise (fun x y => le x y = true) →
      (∀ a ∈ l1, ∀ b ∈ l1, le a b = true → le b a = true → a = b) →
      l1 = l2 := by
  intro l1
  induction l1 with
  | nil =>
    intro l2 hp _ _ _
    exact (hp.symm.eq_nil).symm
  | cons a as ih =>
    intro l2 hp h1 h2 hanti
    cases l2 with
    | nil => exact absurd hp.eq_nil (by simp)
    | cons b bs =>
      have hab : a = b := by
        have hma : a ∈ b :: bs := hp.mem_iff.mp (List.mem_cons_self a as)
        have hmb : b ∈ a :: as := hp.mem_iff.mpr (List.mem_cons_self b bs)
        rcases List.mem_cons.mp hma with h | hma2
        · exact h
        · rcases List.mem_cons.mp hmb with h | hmb2
          · exact h.symm
          · exact hanti a (List.mem_cons_self _ _) b
              (List.mem_cons_of_mem _ hmb2)
              ((List.pairwise_cons.mp h1).1 b hmb2)
              ((List.pairwise_cons.mp h2).1 a hma2)
      subst hab
      rw [ih bs hp.cons_inv (List.pairwise_cons.mp h1).2
        (List.pairwise_cons.mp h2).2
        (fun x hx y hy hxy hyx => hanti x (List.mem_cons_of_mem _ hx) y
          (List.mem_cons_of_mem _ hy) hxy hyx)]

/-- Members of a list with duplicate-free keys are equal when their keys
agree. -/
theorem eq_of_key_eq {β} {key : β → String} :
    ∀ {l : List β}, ((l.map key).Nodup) →
      ∀ {a b : β}, a ∈ l → b ∈ l → key a = key b → a = b := by
  intro l
  induction l with
  | nil =>
    intro _ a b ha
    cases ha
  | cons c cs ih =>
    intro hnd a b ha hb hk
    rw [List.map_cons, List.nodup_cons] at hnd
    rcases List.mem_cons.mp ha with rfl | ha2
    · rcases List.mem_cons.mp hb with rfl | hb2
      · rfl
      · exact absurd (hk ▸ List.mem_map_of_mem key hb2) hnd.1
    · rcases List.mem_cons.mp hb with rfl | hb2
      · exact absurd (hk ▸ List.mem_map_of_mem key ha2) hnd.1
      · exact ih hnd.2 ha2 hb2 hk

/-- One claimed file: its relative path, its content and the media type of
the processor that claimed it. -/
structure SrcFile where
  relPath : String
  content : Bytes
  mediaType : String
deriving DecidableEq, Repr

/-- The layer descriptor built for one file: digest and size of its tar
stream, stamped with the filepath annotation. -/
def layerDesc (h : Bytes → String) (tarFn : String → Bytes → Bytes)
    (f : SrcFile) : Desc :=
  ⟨f.mediaType, digestOf h (tarFn f.relPath f.content),
    (tarFn f.relPath f.content).length, [(annotationFilepath, f.relPath)]⟩

/-- The filepath annotation of a descriptor. -/
def fpOf (d : Desc) : String :=
  (d.annotations.lookup annotationFilepath).getD ""

/-- The assembler's comparator: lexicographic on the filepath annotation. -/
def descLe (d1 d2 : Desc) : Bool := strLe (fpOf d1).data (fpOf d2).data

/-- A JSON string literal (escaping elided: digests, media types and
relative paths contain no quotes). -/
def jsonStr (s : String) : String := "\"" ++ s ++ "\""

def jsonArr (xs : List String) : String :=
  "[" ++ String.intercalate "," xs ++ "]"

def jsonObj (fields : List (String × String)) : String :=
  "\x7b" ++
    String.intercalate ","
      (fields.map (fun kv => jsonStr kv.1 ++ ":" ++ kv.2)) ++
    "\x7d"

/-- Serialise one descriptor as it appears in a manifest. -/
def jsonOfDesc (d : Desc) : String :=
  jsonObj [("mediaType", jsonStr d.mediaType), ("digest", jsonStr d.digest),
    ("size", toString d.size),
    ("annotations",
      jsonObj (d.annotations.map (fun kv => (kv.1, jsonStr kv.2))))]

/-- The model-config metadata (`buildconfig.Model` plus the injected
creation timestamp). -/
structure BuildMeta where
  name : String
  family : String
  createdAt : String
  architecture : String
  format : String
  precision : String
  quantization : String
  paramSize : String
deriving DecidableEq, Repr

/-- The model-config JSON: descriptor block, config block, and
`modelfs.diff_ids` in manifest order. -/
def jsonOfModelConfig (m : BuildMeta) (diffIds : List String) : String :=
  jsonObj
    [("descriptor",
      jsonObj [("name", jsonStr m.name), ("family", jsonStr m.family),
        ("createdAt", jsonStr m.createdAt)]),
    ("config",
      jsonObj [("architecture", jsonStr m.architecture),
        ("format", jsonStr m.format), ("precision", jsonStr m.precision),
        ("quantization", jsonStr m.quantization),
        ("paramSize", jsonStr m.paramSize)]),
    ("modelfs",
      jsonObj [("type", jsonStr "layers"),
        ("diff_ids", jsonArr (diffIds.map jsonStr))])]

/-- The OCI image manifest JSON. -/
def jsonOfManifest (config : Desc) (layers : List Desc)
    (annots : List (String × String)) : String :=
  jsonObj
    [("schemaVersion", "2"),
    ("mediaType", jsonStr "application/vnd.oci.image.manifest.v1+json"),
    ("config", jsonOfDesc config),
    ("layers", jsonArr (layers.map jsonOfDesc)),
    ("annotations",
      jsonObj (annots.map (fun kv => (kv.1, jsonStr kv.2))))]

/-- Bytes of a JSON text, for digesting blobs. -/
def strBytes (s : String) : Bytes := s.data.map (fun c => c.toNat)

/-- The outcome of one build: the two assembled JSON blobs and the final
layer order. -/
structure BuildOut where
  configJSON : String
  manifestJSON : String
  layers : List Desc
deriving DecidableEq, Repr

/-- Modelled from the spec (§4.F steps 6-7): the layer descriptors are
collected in worker completion order (`sched`), sorted lexicographically
by the filepath annotation, then the config (with `diff_ids` in the
sorted layer order) and the manifest (with the rendered-Modelfile
annotation) are assembled. -/
def buildOut (h : Bytes → String) (tarFn : String → Bytes → Bytes)
    (meta : BuildMeta) (mfText : String) (sched : List SrcFile) : BuildOut :=
  let descs := sched.map (layerDesc h tarFn)
  let sorted := sortLe descLe descs
  let configJSON := jsonOfModelConfig meta (sorted.map (fun d => d.digest))
  let configDesc : Desc := ⟨"application/vnd.cnai.model.config.v1+json",
    digestOf h (strBytes configJSON), (strBytes configJSON).length, []⟩
  let manifestJSON := jsonOfManifest configDesc sorted
    [("org.cnai.modctl.modelfile", mfText)]
  ⟨configJSON, manifestJSON, sorted⟩

/-- The filepath annotation of a built layer descriptor is the file's
relative path. -/
theorem fpOf_layerDesc (h : Bytes → String) (tarFn : String → Bytes → Bytes)
    (f : SrcFile) : fpOf (layerDesc h tarFn f) = f.relPath := by
  simp [fpOf, layerDesc, annotationFilepath, List.lookup]

set_option maxHeartbeats 800000 in
/-- C1: for any digest function, tar encoder, metadata and Modelfile text,
two runs of the build whose worker pools complete the same claimed files
in any two orders produce identical config JSON and identical manifest
JSON (hence identical manifest digests), provided the claimed relative
paths are distinct; moreover the manifest's layers are sorted by the
filepath annotation, and the config's `diff_ids` are exactly the layer
digests in that order. -/
theorem c1_deterministic_build (h : Bytes → String)
    (tarFn : String → Bytes → Bytes) (meta : BuildMeta) (mfText : String)
    (claimed s1 s2 : List SrcFile)
    (hp1 : s1.Perm claimed) (hp2 : s2.Perm claimed)
    (hnd : (claimed.map SrcFile.relPath).Nodup) :
    buildOut h tarFn meta mfText s1 = buildOut h tarFn meta mfText s2 ∧
    (buildOut h tarFn meta mfText s1).layers.Pairwise
      (fun a b => descLe a b = true) ∧
    (buildOut h tarFn meta mfText s1).configJSON =
      jsonOfModelConfig meta
        ((buildOut h tarFn meta mfText s1).layers.map (fun d => d.digest)) := by
  have htot : ∀ a b : Desc, descLe a b = true ∨ descLe b a = true :=
    fun a b => strLe_total (fpOf a).data (fpOf b).data
  have htr : ∀ a b c : Desc, descLe a b = true → descLe b c = true →
      descLe a c = true :=
    fun a b c => strLe_trans (fpOf a).data (fpOf b).data (fpOf c).data
  have hkeys : ((claimed.map (layerDesc h tarFn)).map fpOf).Nodup := by
    rw [List.map_map]
    have : (fpOf ∘ layerDesc h tarFn) = SrcFile.relPath := by
      funext f
      exact fpOf_layerDesc h tarFn f
    rw [this]
    exact hnd
  have hanti : ∀ a ∈ claimed.map (layerDesc h tarFn),
      ∀ b ∈ claimed.map (layerDesc h tarFn),
      descLe a b = true → descLe b a = true → a = b := by
    intro a ha b hb hab hba
    have hfp : (fpOf a).data = (fpOf b).data := strLe_antisymm _ _ hab hba
    have hfp2 : fpOf a = fpOf b := by
      cases hfa : fpOf a
      cases hfb : fpOf b
      rw [hfa, hfb] at hfp
      simp only at hfp
      rw [hfp]
    exact eq_of_key_eq hkeys ha hb hfp2
  have hsorted1 := sortLe_pairwise htot htr (s1.map (layerDesc h tarFn))
  have hsorted2 := sortLe_pairwise htot htr (s2.map (layerDesc h tarFn))
  have hperm : (sortLe descLe (s1.map (layerDesc h tarFn))).Perm
      (sortLe descLe (s2.map (layerDesc h tarFn))) :=
    ((sortLe_perm _ _).trans ((hp1.map _).trans
      ((hp2.map (layerDesc h tarFn)).symm.trans (sortLe_perm _ _).symm)))
  have hanti1 : ∀ a ∈ sortLe descLe (s1.map (layerDesc h tarFn)),
      ∀ b ∈ sortLe descLe (s1.map (layerDesc h tarFn)),
      descLe a b = true → descLe b a = true → a = b := by
    intro a ha b hb
    exact hanti a ((hp1.map _).mem_iff.mp ((sortLe_perm _ _).mem_iff.mp ha))
      b ((hp1.map _).mem_iff.mp ((sortLe_perm _ _).mem_iff.mp hb))
  have hsort : sortLe descLe (s1.map (layerDesc h tarFn)) =
      sortLe descLe (s2.map (layerDesc h tarFn)) :=
    sorted_perm_unique _ _ hperm hsorted1 hsorted2 hanti1
  refine ⟨?_, ?_, ?_⟩
  · unfold buildOut
    dsimp only
    rw [hsort]
  · exact hsorted1
  · rfl

/-- Witness for C1: two opposite completion orders of two concrete files
give identical build outputs. -/
theorem c1_deterministic_build_witness :
    buildOut (fun bs => toString bs.length) (fun _ c => c)
        ⟨"m", "llama", "t0", "transformer", "gguf", "fp16", "q4", "7B"⟩
        "NAME m" [⟨"a.bin", [1], "w"⟩, ⟨"b.bin", [2, 2], "w"⟩] =
      buildOut (fun bs => toString bs.length) (fun _ c => c)
        ⟨"m", "llama", "t0", "transformer", "gguf", "fp16", "q4", "7B"⟩
        "NAME m" [⟨"b.bin", [2, 2], "w"⟩, ⟨"a.bin", [1], "w"⟩] ∧
    (buildOut (fun bs => toString bs.length) (fun _ c => c)
        ⟨"m", "llama", "t0", "transformer", "gguf", "fp16", "q4", "7B"⟩
        "NAME m" [⟨"a.bin", [1], "w"⟩, ⟨"b.bin", [2, 2], "w"⟩]).layers.Pairwise
      (fun a b => descLe a b = true) ∧
    (buildOut (fun bs => toString bs.length) (fun _ c => c)
        ⟨"m", "llama", "t0", "transformer", "gguf", "fp16", "q4", "7B"⟩
        "NAME m" [⟨"a.bin", [1], "w"⟩, ⟨"b.bin", [2, 2], "w"⟩]).configJSON =
      jsonOfModelConfig
        ⟨"m", "llama", "t0", "transformer", "gguf", "fp16", "q4", "7B"⟩
        ((buildOut (fun bs => toString bs.length) (fun _ c => c)
          ⟨"m", "llama", "t0", "transformer", "gguf", "fp16", "q4", "7B"⟩
          "NAME m"
          [⟨"a.bin", [1], "w"⟩, ⟨"b.bin", [2, 2], "w"⟩]).layers.map
            (fun d => d.digest)) :=
  c1_deterministic_build (fun bs => toString bs.length) (fun _ c => c)
    ⟨"m", "llama", "t0", "transformer", "gguf", "fp16", "q4", "7B"⟩ "NAME m"
    [⟨"a.bin", [1], "w"⟩, ⟨"b.bin", [2, 2], "w"⟩]
    [⟨"a.bin", [1], "w"⟩, ⟨"b.bin", [2, 2], "w"⟩]
    [⟨"b.bin", [2, 2], "w"⟩, ⟨"a.bin", [1], "w"⟩]
    (by decide) (by decide) (by decide)

end Modctl
